import Mathlib

/-!
Shallow embedding of the state-management core of the `a-lang` repository:
the time-travel snapshot store (`src/time_travel/mod.rs`) and the reactive
dependency graph (`src/reactive/mod.rs`), together with theorems settling
the specification claims about them.

Modelling conventions (documented once here, referenced below):
* Rust `usize` is modelled as `Nat`.  Every subtraction the source performs
  on `usize` without an explicit guard or `saturating_sub` is modelled with
  `checkedSub`, which returns `none` exactly when the Rust subtraction would
  underflow (an abort in debug builds, a silent wrap in release builds).
* `VecDeque`/`Vec` are modelled as `List` (front = index 0).
* `HashMap` is modelled as an association list with first-match lookup and
  replace-or-append insertion; `HashSet` as a duplicate-free list in
  insertion order.  Iteration order of the hash containers is unspecified in
  Rust; the embedding fixes insertion order as its determinization.
* The `Arc<RwLock<Value>>` cells owned by Signals and Computeds are modelled
  as a side heap `values : List (NodeId × Value)` keyed by node id, because
  change propagation replaces only those cells and never the node structure.
* Closures `Fn(&ReactiveContext) -> Value` passed by the evaluator are
  defunctionalized as the expression type `CompFn`, evaluated by
  `evalCompFn` through the same lookup path as `ReactiveContext::get`.
* Runs of user callbacks (a Computed's `compute_fn`, an Effect's
  `effect_fn`) are recorded in a ghost `runLog`, an observational extension
  used to state "f runs exactly once" style claims.
-/

namespace ALang

/-- The runtime `Value` enum of `src/interpreter/value.rs`, restricted to the
constructors exercised by the state-management core and its tests
(`Nil`, `Boolean`, `Integer`, `String`); the remaining constructors play no
role in any claim and are omitted.  Rust `i64` is modelled as `Int`: no
claim exercises `i64` overflow. -/
inductive Value where
  | nil
  | boolean (b : Bool)
  | integer (n : Int)
  | string (s : String)
deriving DecidableEq, Repr

/-! ## Association-list models of `HashMap` / `HashSet` -/

/-- `HashMap::insert`: replace the binding of an existing key in place,
otherwise append the new binding. -/
def upsert {α β : Type} [DecidableEq α] (m : List (α × β)) (k : α) (v : β) :
    List (α × β) :=
  match m with
  | [] => [(k, v)]
  | (k', v') :: rest =>
      if k' = k then (k, v) :: rest else (k', v') :: upsert rest k v

/-- `HashMap::remove`: drop the binding of a key (first occurrence). -/
def removeKey {α β : Type} [DecidableEq α] (m : List (α × β)) (k : α) :
    List (α × β) :=
  match m with
  | [] => []
  | (k', v') :: rest =>
      if k' = k then rest else (k', v') :: removeKey rest k

/-- `HashMap::get` (first-match association-list lookup). -/
def alookup {α β : Type} [DecidableEq α] (m : List (α × β)) (k : α) :
    Option β :=
  match m with
  | [] => none
  | (k', v') :: rest => if k' = k then some v' else alookup rest k

/-- `HashSet::insert`: no-op when the element is present, append otherwise. -/
def hsInsert {α : Type} [DecidableEq α] (s : List α) (x : α) : List α :=
  if x ∈ s then s else s ++ [x]

/-- `HashSet::extend` / `collect from an iterator`: fold of `hsInsert`. -/
def hsExtend {α : Type} [DecidableEq α] (s : List α) (xs : List α) : List α :=
  xs.foldl hsInsert s

/-- Checked `usize` subtraction: `some (a - b)` when `b ≤ a`, `none` when the
Rust expression `a - b` would underflow. -/
def checkedSub (a b : Nat) : Option Nat :=
  if b ≤ a then some (a - b) else none

/-! ## Time-Travel Store (`src/time_travel/mod.rs`) -/

/-- `StackFrame`. -/
structure StackFrame where
  function_name : String
  line : Nat
  locals : List (String × Value)
deriving DecidableEq, Repr

/-- `SnapshotMetadata`. -/
structure SnapshotMetadata where
  memory_usage : Nat
  operations_count : Nat
  tags : List String
deriving DecidableEq, Repr

/-- `Snapshot`.  The `chrono` timestamp is modelled as a `Nat` supplied by
the caller of `snapshot` (the only producer of `Utc::now()`). -/
structure Snapshot where
  id : Nat
  label : Option String
  timestamp : Nat
  state : List (String × Value)
  call_stack : List StackFrame
  line : Nat
  file : String
  metadata : SnapshotMetadata
deriving DecidableEq, Repr

/-- `TimeTravelError`. -/
inductive TimeTravelError where
  | Disabled
  | NoSnapshots
  | SnapshotNotFound
  | InvalidStep (requested : Nat) (available : Nat)
  | CheckpointNotFound (label : String)
  | SerializationError (msg : String)
  | ReplayComplete
deriving DecidableEq, Repr

/-- `TimeTravelDebugger` (the Time-Travel Store).  Of `TimeTravelConfig`
only `max_snapshots` is read by any operation; the other fields are
configuration for the evaluator's auto-snapshot policy and are omitted. -/
structure TimeTravelDebugger where
  snapshots : List Snapshot
  current_index : Nat
  checkpoints : List (String × Nat)
  enabled : Bool
  max_snapshots : Nat
  next_id : Nat
deriving DecidableEq, Repr

/-- `TimeTravelDebugger::new` with the default configuration
(`MAX_SNAPSHOTS = 1000`). -/
def TimeTravelDebugger.default : TimeTravelDebugger :=
  { snapshots := []
    current_index := 0
    checkpoints := []
    enabled := true
    max_snapshots := 1000
    next_id := 0 }

/-- `TimeTravelDebugger::snapshot`.  The truncation loop
`while current_index < len { pop_back() }` shortens the history to
`min len current_index`, i.e. `take current_index`; the capacity branch then
pops the front and decrements the cursor; the new snapshot is pushed and the
cursor is assigned `snapshots.len()` (the length *after* the push). -/
def TimeTravelDebugger.snapshot (d : TimeTravelDebugger)
    (state : List (String × Value)) (call_stack : List StackFrame)
    (line : Nat) (file : String) (label : Option String) (now : Nat) :
    Except TimeTravelError Nat × TimeTravelDebugger :=
  if !d.enabled then (.error .Disabled, d)
  else
    let snaps := d.snapshots.take d.current_index
    let evict : Bool := decide (d.max_snapshots ≤ snaps.length)
    let snaps := if evict then snaps.drop 1 else snaps
    let ci := if evict ∧ 0 < d.current_index then d.current_index - 1
              else d.current_index
    let snap : Snapshot :=
      { id := d.next_id
        label := label
        timestamp := now
        state := state
        call_stack := call_stack
        line := line
        file := file
        metadata := { memory_usage := 0, operations_count := 0, tags := [] } }
    let snaps := snaps ++ [snap]
    -- `self.current_index = self.snapshots.len()` overwrites `ci` entirely;
    -- `ci` is retained above only to mirror the source's dead store.
    let _ := ci
    let newIndex := snaps.length
    let cps := match label with
               | some l => upsert d.checkpoints l (newIndex - 1)
               | none => d.checkpoints
    (.ok d.next_id,
     { d with snapshots := snaps
              current_index := newIndex
              checkpoints := cps
              next_id := d.next_id + 1 })

/-- `TimeTravelDebugger::rewind`.  `saturating_sub` is `Nat` subtraction;
the cursor is written before the (possibly failing) slot lookup, exactly as
in the source. -/
def TimeTravelDebugger.rewind (d : TimeTravelDebugger) (steps : Nat) :
    Except TimeTravelError Snapshot × TimeTravelDebugger :=
  if !d.enabled then (.error .Disabled, d)
  else if d.snapshots.isEmpty then (.error .NoSnapshots, d)
  else if d.current_index < steps then
    (.error (.InvalidStep steps d.current_index), d)
  else
    let ci := d.current_index - steps
    let d' := { d with current_index := ci }
    match d'.snapshots.get? ci with
    | none => (.error .SnapshotNotFound, d')
    | some s => (.ok s, d')

/-- `TimeTravelDebugger::forward`.  The error branch evaluates
`self.snapshots.len() - self.current_index - 1` on `usize`; both
subtractions are modelled with `checkedSub`, and the overall result is
`none` exactly when that expression underflows (a debug-build abort /
release-build wrap in Rust). -/
def TimeTravelDebugger.forward (d : TimeTravelDebugger) (steps : Nat) :
    Option (Except TimeTravelError Snapshot × TimeTravelDebugger) :=
  if !d.enabled then some (.error .Disabled, d)
  else if d.snapshots.isEmpty then some (.error .NoSnapshots, d)
  else
    let new_index := d.current_index + steps
    if d.snapshots.length ≤ new_index then
      match (checkedSub d.snapshots.length d.current_index).bind
              (fun t => checkedSub t 1) with
      | none => none
      | some avail => some (.error (.InvalidStep steps avail), d)
    else
      let d' := { d with current_index := new_index }
      match d'.snapshots.get? new_index with
      | none => some (.error .SnapshotNotFound, d')
      | some s => some (.ok s, d')

/-- `TimeTravelDebugger::jump_to_checkpoint`. -/
def TimeTravelDebugger.jump_to_checkpoint (d : TimeTravelDebugger)
    (label : String) :
    Except TimeTravelError Snapshot × TimeTravelDebugger :=
  if !d.enabled then (.error .Disabled, d)
  else
    match alookup d.checkpoints label with
    | none => (.error (.CheckpointNotFound label), d)
    | some index =>
        let d' := { d with current_index := index }
        match d'.snapshots.get? index with
        | none => (.error .SnapshotNotFound, d')
        | some s => (.ok s, d')

/-- `TimeTravelDebugger::current_snapshot` (read-only). -/
def TimeTravelDebugger.current_snapshot (d : TimeTravelDebugger) :
    Except TimeTravelError Snapshot :=
  if d.snapshots.isEmpty then .error .NoSnapshots
  else
    match d.snapshots.get? d.current_index with
    | none => .error .SnapshotNotFound
    | some s => .ok s

/-- `StateDiff`. -/
structure StateDiff where
  added : List String
  removed : List String
  modified : List (String × Value × Value)
deriving DecidableEq, Repr

/-- `StateDiff::compute` over the (determinized) persistent maps. -/
def StateDiff.compute (old_state new_state : List (String × Value)) :
    StateDiff :=
  let added := (new_state.filter
    (fun kv => (alookup old_state kv.1).isNone)).map (·.1)
  let modified := new_state.filterMap (fun kv =>
    match alookup old_state kv.1 with
    | some ov => if ov ≠ kv.2 then some (kv.1, ov, kv.2) else none
    | none => none)
  let removed := (old_state.filter
    (fun kv => (alookup new_state kv.1).isNone)).map (·.1)
  { added := added, removed := removed, modified := modified }

/-- `TimeTravelDebugger::diff`: locate both snapshots by id anywhere in the
retained history, then diff their state maps. -/
def TimeTravelDebugger.diff (d : TimeTravelDebugger) (from_id to_id : Nat) :
    Except TimeTravelError StateDiff :=
  match d.snapshots.find? (fun s => s.id = from_id) with
  | none => .error .SnapshotNotFound
  | some fromSnap =>
      match d.snapshots.find? (fun s => s.id = to_id) with
      | none => .error .SnapshotNotFound
      | some toSnap => .ok (StateDiff.compute fromSnap.state toSnap.state)

/-! ## Reactive Graph (`src/reactive/mod.rs`) -/

/-- `type NodeId = usize`. -/
abbrev NodeId := Nat

/-- Defunctionalized form of the evaluator-supplied closures
`Fn(&ReactiveContext) -> Value`: a closure may return a constant, read a
node by name through `ReactiveContext::get` (the tests' closures do
`ctx.get("x").unwrap()`; a failed read is absorbed as `Nil`), or combine two
reads with `i64` addition. -/
inductive CompFn where
  | const (v : Value)
  | readName (n : String)
  | add (a b : CompFn)
deriving DecidableEq, Repr

/-- `Signal` minus its id-independent value cell (held in
`ReactiveContext.values`). -/
structure SignalNode where
  id : NodeId
  subscribers : List NodeId
  name : String
deriving DecidableEq, Repr

/-- `Computed` minus its value cell. -/
structure ComputedNode where
  id : NodeId
  dependencies : List NodeId
  subscribers : List NodeId
  compute_fn : CompFn
  name : String
deriving DecidableEq, Repr

/-- `Effect`. -/
structure EffectNode where
  id : NodeId
  dependencies : List NodeId
  name : String
  enabled : Bool
deriving DecidableEq, Repr

/-- `ReactiveNode`. -/
inductive ReactiveNode where
  | signal (s : SignalNode)
  | computed (c : ComputedNode)
  | effect (e : EffectNode)
deriving DecidableEq, Repr

/-- `ReactiveError`. -/
inductive ReactiveError where
  | NotFound (name : String)
  | DuplicateName (name : String)
  | UnknownDependency (name : String)
  | InvalidOperation (msg : String)
  | CircularDependency (cycle : List String)
deriving DecidableEq, Repr

/-- `ReactiveContext`.  `current_node` is omitted: the source initializes it
to `None` and never assigns or reads it meaningfully.  The three per-kind
`static` id counters of `Signal::new` / `Computed::new` / `Effect::new` are
carried in the context state; `runLog` is the ghost callback-invocation log
(see the header comment). -/
structure ReactiveContext where
  nodes : List (NodeId × ReactiveNode)
  name_to_id : List (String × NodeId)
  dependency_graph : List (NodeId × List NodeId)
  batch_mode : Bool
  pending_updates : List NodeId
  values : List (NodeId × Value)
  next_signal_id : Nat
  next_computed_id : Nat
  next_effect_id : Nat
  runLog : List NodeId
deriving DecidableEq, Repr

/-- `ReactiveContext::new`, with the three counters at their `static`
initial values 0 / 1000 / 2000. -/
def ReactiveContext.new : ReactiveContext :=
  { nodes := []
    name_to_id := []
    dependency_graph := []
    batch_mode := false
    pending_updates := []
    values := []
    next_signal_id := 0
    next_computed_id := 1000
    next_effect_id := 2000
    runLog := [] }

/-- The lookup path of `ReactiveContext::get`, abstracted over the raw
stores so that a compute closure evaluated mid-propagation reads through
the same code. -/
def getValue (nodes : List (NodeId × ReactiveNode))
    (name_to_id : List (String × NodeId)) (values : List (NodeId × Value))
    (name : String) : Except ReactiveError Value :=
  match alookup name_to_id name with
  | none => .error (.NotFound name)
  | some id =>
      match alookup nodes id with
      | some (.signal _) => .ok ((alookup values id).getD Value.nil)
      | some (.computed _) => .ok ((alookup values id).getD Value.nil)
      | some (.effect _) =>
          .error (.InvalidOperation "Cannot get value of an effect")
      | none => .error (.NotFound name)

/-- Evaluation of a defunctionalized compute closure against the context's
stores; a failing `get` is absorbed as `Nil`, non-integer addition yields
`Nil` (the closures in the claims never hit either case). -/
def evalCompFn (nodes : List (NodeId × ReactiveNode))
    (name_to_id : List (String × NodeId)) (values : List (NodeId × Value)) :
    CompFn → Value
  | .const v => v
  | .readName n =>
      match getValue nodes name_to_id values n with
      | .ok v => v
      | .error _ => Value.nil
  | .add a b =>
      match evalCompFn nodes name_to_id values a,
            evalCompFn nodes name_to_id values b with
      | .integer x, .integer y => .integer (x + y)
      | _, _ => Value.nil

/-- `ReactiveContext::get`. -/
def ReactiveContext.get (ctx : ReactiveContext) (name : String) :
    Except ReactiveError Value :=
  getValue ctx.nodes ctx.name_to_id ctx.values name

/-- The dependency-name resolution loop shared by `register_computed` and
`register_effect`: first failure wins, as with `collect::<Result<..>>`. -/
def resolveDeps (name_to_id : List (String × NodeId)) :
    List String → Except ReactiveError (List NodeId)
  | [] => .ok []
  | n :: rest =>
      match alookup name_to_id n with
      | none => .error (.UnknownDependency n)
      | some id =>
          match resolveDeps name_to_id rest with
          | .error e => .error e
          | .ok ids => .ok (id :: ids)

/-- `Signal::subscribe` / `Computed::subscribe` dispatched on the node found
under `dep_id`; Effects (and absent ids) are skipped, as in the source's
`if let` chain. -/
def subscribeNode (nodes : List (NodeId × ReactiveNode)) (dep_id : NodeId)
    (sub_id : NodeId) : List (NodeId × ReactiveNode) :=
  match alookup nodes dep_id with
  | some (.signal s) =>
      upsert nodes dep_id
        (.signal { s with subscribers := hsInsert s.subscribers sub_id })
  | some (.computed c) =>
      upsert nodes dep_id
        (.computed { c with subscribers := hsInsert c.subscribers sub_id })
  | _ => nodes

/-- The `for dep_id in &dep_ids { ... subscribe(id) }` loop. -/
def subscribeAll (nodes : List (NodeId × ReactiveNode))
    (dep_ids : List NodeId) (sub_id : NodeId) :
    List (NodeId × ReactiveNode) :=
  dep_ids.foldl (fun ns d => subscribeNode ns d sub_id) nodes

/-- `ReactiveContext::register_signal`.  `Signal::new` draws the id from the
static counter before the duplicate-name check, so a failed registration
still consumes an id. -/
def ReactiveContext.register_signal (ctx : ReactiveContext) (name : String)
    (initial_value : Value) :
    Except ReactiveError NodeId × ReactiveContext :=
  let id := ctx.next_signal_id
  let ctx := { ctx with next_signal_id := id + 1 }
  if (alookup ctx.name_to_id name).isSome then
    (.error (.DuplicateName name), ctx)
  else
    (.ok id,
     { ctx with
        nodes := upsert ctx.nodes id
          (.signal { id := id, subscribers := [], name := name })
        name_to_id := upsert ctx.name_to_id name id
        values := upsert ctx.values id initial_value })

/-- `ReactiveContext::register_computed`.  Faithful to the source's order of
effects: dependency resolution; `Computed::new` (id allocation, `Nil` cache,
deduplicated dependency set); subscription of the new id to every
dependency; the `dependency_graph` insert; the initial `recompute` (run
against the context in which the new node is not yet registered); and only
then the duplicate-name check — whose failure therefore leaves all the
preceding mutations in place. -/
def ReactiveContext.register_computed (ctx : ReactiveContext) (name : String)
    (dependencies : List String) (compute_fn : CompFn) :
    Except ReactiveError NodeId × ReactiveContext :=
  match resolveDeps ctx.name_to_id dependencies with
  | .error e => (.error e, ctx)
  | .ok dep_ids =>
      let id := ctx.next_computed_id
      let ctx := { ctx with next_computed_id := id + 1 }
      let depSet := hsExtend [] dep_ids
      let nodes₁ := subscribeAll ctx.nodes dep_ids id
      let deps₁ := upsert ctx.dependency_graph id depSet
      let values₁ := upsert ctx.values id Value.nil
      let v := evalCompFn nodes₁ ctx.name_to_id values₁ compute_fn
      let ctx := { ctx with
                    nodes := nodes₁
                    dependency_graph := deps₁
                    values := upsert values₁ id v
                    runLog := ctx.runLog ++ [id] }
      if (alookup ctx.name_to_id name).isSome then
        (.error (.DuplicateName name), ctx)
      else
        (.ok id,
         { ctx with
            nodes := upsert ctx.nodes id
              (.computed { id := id, dependencies := depSet,
                           subscribers := [], compute_fn := compute_fn,
                           name := name })
            name_to_id := upsert ctx.name_to_id name id })

/-- `ReactiveContext::register_effect`.  Same resolution and subscription as
`register_computed`; the effect (enabled at creation) runs once; the node is
inserted into the registry — and, unlike the other two registrations, the
name is never checked for collision nor recorded in `name_to_id`. -/
def ReactiveContext.register_effect (ctx : ReactiveContext) (name : String)
    (dependencies : List String) :
    Except ReactiveError NodeId × ReactiveContext :=
  match resolveDeps ctx.name_to_id dependencies with
  | .error e => (.error e, ctx)
  | .ok dep_ids =>
      let id := ctx.next_effect_id
      let ctx := { ctx with next_effect_id := id + 1 }
      let depSet := hsExtend [] dep_ids
      let nodes₁ := subscribeAll ctx.nodes dep_ids id
      let deps₁ := upsert ctx.dependency_graph id depSet
      -- `effect.run(self)`: the enabled flag was just created `true`.
      let log₁ := ctx.runLog ++ [id]
      (.ok id,
       { ctx with
          nodes := upsert nodes₁ id
            (.effect { id := id, dependencies := depSet, name := name,
                       enabled := true })
          dependency_graph := deps₁
          runLog := log₁ })

/-- List of every subscriber-set element over the whole registry; the
frontier pushed by the propagation loop is always drawn from this list,
which bounds the loop's iteration count. -/
def allSubs (nodes : List (NodeId × ReactiveNode)) : List NodeId :=
  (nodes.map (fun kv =>
    match kv.2 with
    | .signal s => s.subscribers
    | .computed c => c.subscribers
    | .effect _ => [])).flatten

/-- Elements of `l` not yet visited (the potential of the propagation
loop). -/
def remAll (l visited : List NodeId) : List NodeId :=
  l.filter (fun x => x ∉ visited)

/-- The `if visited.insert(id) { to_update.push_back(id) }` pattern, used
both to seed the queue and to push a processed node's subscribers. -/
def enqueueNew (visited queue : List NodeId) :
    List NodeId → List NodeId × List NodeId
  | [] => (visited, queue)
  | x :: xs =>
      if x ∈ visited then enqueueNew visited queue xs
      else enqueueNew (visited ++ [x]) (queue ++ [x]) xs

/-- Upper bound on the number of iterations the propagation loop can still
perform from a given `(visited, queue)` state: each iteration pops one queue
entry and any ids it pushes are drawn from the registry's subscriber lists
and are newly visited, so this quantity strictly decreases. -/
def pgMeasure (nodes : List (NodeId × ReactiveNode))
    (visited queue : List NodeId) : Nat :=
  queue.length + (remAll (allSubs nodes) visited).length

/-- The `while let Some(id) = to_update.pop_front()` loop of
`ReactiveContext::propagate_changes`.  During the loop the node registry and
name index are fixed (`recompute` replaces only a value cell; `run` only
fires a callback), so they are parameters and only the value heap and the
ghost log are threaded.  The `fuel` argument makes the recursion structural;
`propagate_changes` passes an amount proved sufficient below, so the 0 case
is unreachable from it. -/
def propagateGo (nodes : List (NodeId × ReactiveNode))
    (name_to_id : List (String × NodeId)) :
    Nat → List NodeId → List NodeId → List (NodeId × Value) →
    List NodeId → List (NodeId × Value) × List NodeId
  | 0, _, _, vals, log => (vals, log)
  | fuel + 1, visited, queue, vals, log =>
      match queue with
      | [] => (vals, log)
      | id :: rest =>
          match alookup nodes id with
          | some (.computed c) =>
              let v := evalCompFn nodes name_to_id vals c.compute_fn
              let vals' := upsert vals id v
              let vq := enqueueNew visited rest c.subscribers
              propagateGo nodes name_to_id fuel vq.1 vq.2 vals' (log ++ [id])
          | some (.effect e) =>
              propagateGo nodes name_to_id fuel visited rest vals
                (if e.enabled then log ++ [id] else log)
          | _ => propagateGo nodes name_to_id fuel visited rest vals log

/-- `ReactiveContext::propagate_changes`.  The source returns
`Result<(), ReactiveError>` but only ever `Ok(())`, so the embedding
returns the updated context directly. -/
def ReactiveContext.propagate_changes (ctx : ReactiveContext)
    (changed_ids : List NodeId) : ReactiveContext :=
  let vq := enqueueNew [] [] changed_ids
  let fuel := pgMeasure ctx.nodes vq.1 vq.2
  let vl := propagateGo ctx.nodes ctx.name_to_id fuel vq.1 vq.2
              ctx.values ctx.runLog
  { ctx with values := vl.1, runLog := vl.2 }

/-- `ReactiveContext::set`. -/
def ReactiveContext.set (ctx : ReactiveContext) (name : String)
    (value : Value) : Except ReactiveError Unit × ReactiveContext :=
  match alookup ctx.name_to_id name with
  | none => (.error (.NotFound name), ctx)
  | some id =>
      match alookup ctx.nodes id with
      | some (.signal s) =>
          let ctx := { ctx with values := upsert ctx.values id value }
          if ctx.batch_mode then
            (.ok (),
             { ctx with pending_updates :=
                 hsExtend ctx.pending_updates s.subscribers })
          else
            (.ok (), ctx.propagate_changes s.subscribers)
      | some (.computed _) =>
          (.error (.InvalidOperation "Cannot directly set a computed value"),
           ctx)
      | some (.effect _) =>
          (.error (.InvalidOperation "Cannot set an effect"), ctx)
      | none => (.error (.NotFound name), ctx)

/-- `ReactiveContext::begin_batch`. -/
def ReactiveContext.begin_batch (ctx : ReactiveContext) : ReactiveContext :=
  { ctx with batch_mode := true }

/-- `ReactiveContext::end_batch`: leave batch mode, drain the pending set
(in its insertion order, the embedding's determinization of the `HashSet`
iteration), propagate it once. -/
def ReactiveContext.end_batch (ctx : ReactiveContext) :
    Except ReactiveError Unit × ReactiveContext :=
  let ctx := { ctx with batch_mode := false }
  let pending := ctx.pending_updates
  let ctx := { ctx with pending_updates := [] }
  (.ok (), ctx.propagate_changes pending)

/-- `ReactiveContext::remove`.  The node's value cell is owned by the node
object and dropped with it.  Subscriber entries pointing at the removed id
are left dangling, as in the source. -/
def ReactiveContext.remove (ctx : ReactiveContext) (name : String) :
    Except ReactiveError Unit × ReactiveContext :=
  match alookup ctx.name_to_id name with
  | none => (.error (.NotFound name), ctx)
  | some id =>
      (.ok (),
       { ctx with
          name_to_id := removeKey ctx.name_to_id name
          nodes := removeKey ctx.nodes id
          dependency_graph := removeKey ctx.dependency_graph id
          values := removeKey ctx.values id })

/-! ### Registration sequences (for the id-uniqueness claim) -/

/-- One registration request, as issued by the evaluator. -/
inductive RegOp where
  | sig (name : String) (v : Value)
  | comp (name : String) (deps : List String) (f : CompFn)
  | eff (name : String) (deps : List String)
deriving DecidableEq, Repr

/-- Apply one registration request. -/
def applyReg (ctx : ReactiveContext) :
    RegOp → Except ReactiveError NodeId × ReactiveContext
  | .sig n v => ctx.register_signal n v
  | .comp n ds f => ctx.register_computed n ds f
  | .eff n ds => ctx.register_effect n ds

/-- Run a sequence of registration requests, collecting each result. -/
def runRegs (ctx : ReactiveContext) :
    List RegOp → ReactiveContext × List (Except ReactiveError NodeId)
  | [] => (ctx, [])
  | op :: ops =>
      let rc := applyReg ctx op
      let rest := runRegs rc.2 ops
      (rest.1, rc.1 :: rest.2)

/-! ## Auxiliary definitions used by the theorems -/

/-- Equality on `Except` is decidable when it is on both components (needed
to `decide` concrete runs of the fallible operations). -/
instance {ε α : Type} [DecidableEq ε] [DecidableEq α] :
    DecidableEq (Except ε α) := fun
  | .ok a, .ok b =>
      match decEq a b with
      | isTrue h => isTrue (by rw [h])
      | isFalse h => isFalse (by intro hh; cases hh; exact h rfl)
  | .ok _, .error _ => isFalse (by intro h; cases h)
  | .error _, .ok _ => isFalse (by intro h; cases h)
  | .error a, .error b =>
      match decEq a b with
      | isTrue h => isTrue (by rw [h])
      | isFalse h => isFalse (by intro hh; cases hh; exact h rfl)

/-- Extract the id of a successfully returned snapshot. -/
def okSnapshotId (r : Except TimeTravelError Snapshot) : Option Nat :=
  match r with
  | .ok s => some s.id
  | .error _ => none

/-- The only aspect of a registry entry that `getValue`'s dispatch inspects:
which constructor (if any) sits under an id. -/
def nodeShape : Option ReactiveNode → Nat
  | some (.signal _) => 0
  | some (.computed _) => 1
  | some (.effect _) => 2
  | none => 3

/-- A compute closure that reads only names currently bound to Signals
(the hypothesis under which propagation order cannot make it observe a
stale sibling Computed). -/
def readsOnlySignals (nodes : List (NodeId × ReactiveNode))
    (ntid : List (String × NodeId)) : CompFn → Prop
  | .const _ => True
  | .readName n =>
      ∃ i s, alookup ntid n = some i ∧ alookup nodes i = some (.signal s)
  | .add a b => readsOnlySignals nodes ntid a ∧ readsOnlySignals nodes ntid b

/-- The ids granted by a run of registrations (successful results only). -/
def okIds (rs : List (Except ReactiveError NodeId)) : List NodeId :=
  rs.filterMap (fun r => match r with | .ok i => some i | .error _ => none)

/-- Number of signal registrations in a request sequence. -/
def countSigOps : List RegOp → Nat
  | [] => 0
  | .sig _ _ :: ops => countSigOps ops + 1
  | _ :: ops => countSigOps ops

/-- Number of computed registrations in a request sequence. -/
def countCompOps : List RegOp → Nat
  | [] => 0
  | .comp _ _ _ :: ops => countCompOps ops + 1
  | _ :: ops => countCompOps ops

/-- The i-th signal name of the id-collision scenario: `i` copies of
`'a'`, so all names are pairwise distinct. -/
def aName (i : Nat) : String := String.mk (List.replicate i 'a')

/-- `n` distinct signal registrations. -/
def sigOps (n : Nat) : List RegOp :=
  (List.range n).map (fun i => RegOp.sig (aName i) (.integer 0))

/-- The context reached from a fresh graph by the `n` signal registrations
of `sigOps n` (proved below): signals with ids `0..n-1`. -/
def sigCtx (n : Nat) : ReactiveContext :=
  { nodes := (List.range n).map
      (fun i => (i, .signal { id := i, subscribers := [], name := aName i }))
    name_to_id := (List.range n).map (fun i => (aName i, i))
    dependency_graph := []
    batch_mode := false
    pending_updates := []
    values := (List.range n).map (fun i => (i, Value.integer 0))
    next_signal_id := n
    next_computed_id := 1000
    next_effect_id := 2000
    runLog := [] }

/-- The id-collision scenario: 1001 successful signal registrations
followed by one successful computed registration. -/
def c7ops : List RegOp :=
  sigOps 1001 ++ [RegOp.comp "c" [] (.const (.integer 7))]

/-! ## Basic lemmas about the container models -/

theorem alookup_upsert_self {α β : Type} [DecidableEq α]
    (m : List (α × β)) (k : α) (v : β) :
    alookup (upsert m k v) k = some v := by
  induction m with
  | nil => simp [upsert, alookup]
  | cons kv rest ih =>
      by_cases h : kv.1 = k
      · simp [upsert, alookup, h]
      · simp [upsert, alookup, h, ih]

theorem alookup_upsert_ne {α β : Type} [DecidableEq α]
    (m : List (α × β)) (k : α) (v : β) (k' : α) (h : k' ≠ k) :
    alookup (upsert m k v) k' = alookup m k' := by
  induction m with
  | nil =>
      have h' : k ≠ k' := fun hh => h hh.symm
      simp [upsert, alookup, h']
  | cons kv rest ih =>
      by_cases hk : kv.1 = k
      · subst hk
        simp [upsert, alookup, h, Ne.symm h]
      · simp [upsert, alookup, hk, ih]

/-! ## Claims C1-C4: the Time-Travel Store cursor off-by-one -/

/-- **C1.** The claim says that after every operation either the history is
empty or `current_index` is the index of a valid slot, and in particular
that right after a successful `snapshot()` the cursor points at the new last
entry so `current_snapshot()` succeeds.  The code instead assigns
`current_index = snapshots.len()` — one *past* the last slot — so on the
very first operation sequence (a single successful `snapshot` on a fresh
enabled store) the history has length 1, the cursor is 1, and
`current_snapshot()` fails with `SnapshotNotFound`. -/
theorem c1_cursor_invalid_after_snapshot :
    (TimeTravelDebugger.default.snapshot [] [] 1 "a" none 0).1 = .ok 0 ∧
    (TimeTravelDebugger.default.snapshot [] [] 1 "a" none 0).2.snapshots.length = 1 ∧
    (TimeTravelDebugger.default.snapshot [] [] 1 "a" none 0).2.current_index = 1 ∧
    (TimeTravelDebugger.default.snapshot [] [] 1 "a" none 0).2.current_snapshot
      = .error .SnapshotNotFound := by
  decide

/-- **C2.** The claim says `snapshot(...); rewind(1); forward(1)` succeeds
and returns to the pre-rewind snapshot id.  On the code, after `snapshot`
the cursor equals the history length, `rewind(1)` moves it to `len - 1`
(returning the just-taken snapshot, id 1 here), and `forward(1)` targets
`len` again, which fails the `new_index >= len` bound check: the round trip
always ends in `InvalidStep`. -/
theorem c2_forward_after_rewind_fails :
    ((TimeTravelDebugger.default.snapshot [] [] 1 "a" none 0).2.snapshot
        [] [] 2 "a" none 1).1 = .ok 1 ∧
    okSnapshotId (((TimeTravelDebugger.default.snapshot [] [] 1 "a" none 0).2.snapshot
        [] [] 2 "a" none 1).2.rewind 1).1 = some 1 ∧
    (((TimeTravelDebugger.default.snapshot [] [] 1 "a" none 0).2.snapshot
        [] [] 2 "a" none 1).2.rewind 1).2.forward 1
      = some (.error (.InvalidStep 1 0),
          (((TimeTravelDebugger.default.snapshot [] [] 1 "a" none 0).2.snapshot
              [] [] 2 "a" none 1).2.rewind 1).2) := by
  decide

/-- **C3.** The claim says no operation aborts via arithmetic underflow and
singles out `forward(k)` right after a snapshot.  After one `snapshot` on a
fresh store, `current_index = snapshots.len() = 1`, and `forward(1)` takes
the error branch, whose `available` count `len - current_index - 1`
evaluates `0 - 1` on `usize`: the embedding's checked subtraction returns
`none` (debug-build abort; release-build wrap to `2^64 - 1`). -/
theorem c3_forward_underflows_after_snapshot :
    (TimeTravelDebugger.default.snapshot [] [] 1 "a" none 0).2.forward 1
      = none := by
  decide

/-- **C4.** The claim says a snapshot taken after `rewind(k)` removes only
the entries strictly after the cursor and retains the snapshot S that
`rewind` returned.  The code's truncation loop `while current_index < len
{ pop_back() }` shortens the history to the cursor itself, discarding S as
well: after two snapshots (ids 0, 1), `rewind(1)` returns id 1, and the next
`snapshot` leaves history ids `[0, 2]` — `diff(1, 1)` now fails with
`SnapshotNotFound` because id 1 was evicted. -/
theorem c4_rewound_snapshot_discarded_on_next_snapshot :
    okSnapshotId ((((TimeTravelDebugger.default.snapshot [] [] 1 "a" none 0).2.snapshot
        [] [] 2 "a" none 1).2.rewind 1).1) = some 1 ∧
    (((((TimeTravelDebugger.default.snapshot [] [] 1 "a" none 0).2.snapshot
        [] [] 2 "a" none 1).2.rewind 1).2.snapshot [] [] 3 "a" none 2).1 = .ok 2) ∧
    (((((TimeTravelDebugger.default.snapshot [] [] 1 "a" none 0).2.snapshot
        [] [] 2 "a" none 1).2.rewind 1).2.snapshot [] [] 3 "a" none 2).2.snapshots.map
          Snapshot.id = [0, 2]) ∧
    (((((TimeTravelDebugger.default.snapshot [] [] 1 "a" none 0).2.snapshot
        [] [] 2 "a" none 1).2.rewind 1).2.snapshot [] [] 3 "a" none 2).2.diff 1 1
      = .error .SnapshotNotFound) := by
  decide

/-! ## Claim C6: `get` on an Effect's name -/

/-- **C6.** The claim says `get(name)` fails with `InvalidOperation` when
`name` names a previously registered Effect, and with `NotFound` only when
nothing was registered under `name`.  But `register_effect` never records
its name in `name_to_id` (unlike the other two registrations), so after
successfully registering effect "e" the registry holds the effect node under
id 2000 while `get("e")` returns `NotFound("e")` — the `InvalidOperation`
branch of `get` is unreachable through the public API. -/
theorem c6_get_effect_name_is_notfound :
    ((ReactiveContext.new.register_signal "s" (.integer 1)).2.register_effect
        "e" ["s"]).1 = .ok 2000 ∧
    alookup ((ReactiveContext.new.register_signal "s" (.integer 1)).2.register_effect
        "e" ["s"]).2.nodes 2000
      = some (.effect { id := 2000, dependencies := [0], name := "e",
                        enabled := true }) ∧
    ((ReactiveContext.new.register_signal "s" (.integer 1)).2.register_effect
        "e" ["s"]).2.get "e" = .error (.NotFound "e") := by
  decide

/-! ## Claim C5: duplicate-name `register_computed` is not atomic -/

/-- **C5 counterexample.**  With signal "x" registered (id 0), registering a
computed under the same name "x" fails with `DuplicateName` — but only
after the new id 1000 has been subscribed to signal 0, the adjacency entry
`1000 → [0]` has been recorded, and the compute closure has run once (ghost
log `[1000]`), while id 1000 itself is absent from the node registry: the
edge has a dangling endpoint, contradicting the claim that the graph is
left unchanged and `f` is not run. -/
theorem c5_duplicate_computed_mutates_graph :
    ((ReactiveContext.new.register_signal "x" (.integer 10)).2.register_computed
        "x" ["x"] (.readName "x")).1 = .error (.DuplicateName "x") ∧
    alookup ((ReactiveContext.new.register_signal "x" (.integer 10)).2.register_computed
        "x" ["x"] (.readName "x")).2.nodes 0
      = some (.signal { id := 0, subscribers := [1000], name := "x" }) ∧
    alookup ((ReactiveContext.new.register_signal "x" (.integer 10)).2.register_computed
        "x" ["x"] (.readName "x")).2.dependency_graph 1000 = some [0] ∧
    ((ReactiveContext.new.register_signal "x" (.integer 10)).2.register_computed
        "x" ["x"] (.readName "x")).2.runLog = [1000] ∧
    alookup ((ReactiveContext.new.register_signal "x" (.integer 10)).2.register_computed
        "x" ["x"] (.readName "x")).2.nodes 1000 = none := by
  decide

/-- `subscribeNode` only rewrites existing registry entries, so an absent id
stays absent. -/
theorem alookup_subscribeNode_none (ns : List (NodeId × ReactiveNode))
    (d i j : NodeId) (h : alookup ns j = none) :
    alookup (subscribeNode ns d i) j = none := by
  rcases hd : alookup ns d with _ | node
  · simp [subscribeNode, hd, h]
  · have hne : j ≠ d := by
      rintro rfl
      rw [hd] at h
      cases h
    rcases node with s0 | c0 | e0 <;>
      simp [subscribeNode, hd, alookup_upsert_ne _ _ _ _ hne, h]

/-- `subscribeAll` only rewrites existing registry entries. -/
theorem alookup_subscribeAll_none (ns : List (NodeId × ReactiveNode))
    (ds : List NodeId) (i j : NodeId) (h : alookup ns j = none) :
    alookup (subscribeAll ns ds i) j = none := by
  induction ds generalizing ns with
  | nil => simpa [subscribeAll] using h
  | cons d rest ih =>
      have hfold : subscribeAll ns (d :: rest) i
          = subscribeAll (subscribeNode ns d i) rest i := by
        simp [subscribeAll]
      rw [hfold]
      exact ih _ (alookup_subscribeNode_none ns d i j h)

/-- **C5 amended.**  When `name` is already registered and the dependency
names resolve, `register_computed` fails with `DuplicateName` and adds no
node-registry entry and no name binding — but before failing it has already
subscribed the new id to every dependency's subscriber set, inserted the
dependency-adjacency entry for the new id, and run the compute closure
once; the new id is not in the registry, so the recorded edge has a
dangling endpoint. -/
theorem c5_amended_duplicate_computed_side_effects
    (ctx : ReactiveContext) (name : String) (deps : List String)
    (f : CompFn) (dep_ids : List NodeId)
    (hres : resolveDeps ctx.name_to_id deps = .ok dep_ids)
    (hdup : (alookup ctx.name_to_id name).isSome = true)
    (hfresh : alookup ctx.nodes ctx.next_computed_id = none) :
    (ctx.register_computed name deps f).1 = .error (.DuplicateName name) ∧
    (ctx.register_computed name deps f).2.name_to_id = ctx.name_to_id ∧
    (ctx.register_computed name deps f).2.nodes
      = subscribeAll ctx.nodes dep_ids ctx.next_computed_id ∧
    alookup (ctx.register_computed name deps f).2.nodes
      ctx.next_computed_id = none ∧
    alookup (ctx.register_computed name deps f).2.dependency_graph
      ctx.next_computed_id = some (hsExtend [] dep_ids) ∧
    (ctx.register_computed name deps f).2.runLog
      = ctx.runLog ++ [ctx.next_computed_id] := by
  have hsub : alookup (subscribeAll ctx.nodes dep_ids ctx.next_computed_id)
      ctx.next_computed_id = none :=
    alookup_subscribeAll_none ctx.nodes dep_ids ctx.next_computed_id
      ctx.next_computed_id hfresh
  constructor
  · simp [ReactiveContext.register_computed, hres, hdup]
  constructor
  · simp [ReactiveContext.register_computed, hres, hdup]
  constructor
  · simp [ReactiveContext.register_computed, hres, hdup]
  constructor
  · simp [ReactiveContext.register_computed, hres, hdup, hsub]
  constructor
  · simp [ReactiveContext.register_computed, hres, hdup, alookup_upsert_self]
  · simp [ReactiveContext.register_computed, hres, hdup]

/-- **C5 amended, witness**: the concrete duplicate registration of the
counterexample discharges every hypothesis. -/
theorem c5_amended_witness :
    (((ReactiveContext.new.register_signal "x" (.integer 10)).2.register_computed
        "x" ["x"] (.readName "x")).1 = .error (.DuplicateName "x")) ∧
    (((ReactiveContext.new.register_signal "x" (.integer 10)).2.register_computed
        "x" ["x"] (.readName "x")).2.name_to_id
      = (ReactiveContext.new.register_signal "x" (.integer 10)).2.name_to_id) := by
  have h := c5_amended_duplicate_computed_side_effects
    (ReactiveContext.new.register_signal "x" (.integer 10)).2
    "x" ["x"] (.readName "x") [0] (by decide) (by decide) (by decide)
  exact ⟨h.1, h.2.1⟩

/-! ## Claim C10: `register_effect` and the name index -/

/-- `subscribeNode` preserves the constructor under every id. -/
theorem nodeShape_subscribeNode (ns : List (NodeId × ReactiveNode))
    (d i j : NodeId) :
    nodeShape (alookup (subscribeNode ns d i) j)
      = nodeShape (alookup ns j) := by
  rcases hd : alookup ns d with _ | node
  · simp [subscribeNode, hd]
  · rcases node with s0 | c0 | e0
    · by_cases hj : j = d
      · subst hj
        simp [subscribeNode, hd, alookup_upsert_self, nodeShape]
      · simp [subscribeNode, hd, alookup_upsert_ne _ _ _ _ hj]
    · by_cases hj : j = d
      · subst hj
        simp [subscribeNode, hd, alookup_upsert_self, nodeShape]
      · simp [subscribeNode, hd, alookup_upsert_ne _ _ _ _ hj]
    · simp [subscribeNode, hd]

/-- `subscribeAll` preserves the constructor under every id. -/
theorem nodeShape_subscribeAll (ns : List (NodeId × ReactiveNode))
    (ds : List NodeId) (i j : NodeId) :
    nodeShape (alookup (subscribeAll ns ds i) j)
      = nodeShape (alookup ns j) := by
  induction ds generalizing ns with
  | nil => simp [subscribeAll]
  | cons d rest ih =>
      have hfold : subscribeAll ns (d :: rest) i
          = subscribeAll (subscribeNode ns d i) rest i := by
        simp [subscribeAll]
      rw [hfold, ih, nodeShape_subscribeNode]

/-- `getValue` only depends on the registry through the constructor under
the resolved id, so two registries agreeing on shapes at the resolved id
give the same answer. -/
theorem getValue_congr (ns ns' : List (NodeId × ReactiveNode))
    (ntid : List (String × NodeId)) (vals : List (NodeId × Value))
    (n : String)
    (h : ∀ j, alookup ntid n = some j →
      nodeShape (alookup ns' j) = nodeShape (alookup ns j)) :
    getValue ns' ntid vals n = getValue ns ntid vals n := by
  unfold getValue
  cases hn : alookup ntid n with
  | none => rfl
  | some i =>
      have hi := h i hn
      rcases h1 : alookup ns' i with _ | n1 <;>
        rcases h2 : alookup ns i with _ | n2 <;>
        [skip; rcases n2 with s2 | c2 | e2;
         rcases n1 with s1 | c1 | e1;
         (rcases n1 with s1 | c1 | e1 <;> rcases n2 with s2 | c2 | e2)] <;>
        simp [nodeShape, h1, h2] at hi ⊢

/-- **C10.**  `register_effect` never records its name in the name→id index
and never checks it for collision: whenever the dependency names resolve
(and the freshly drawn effect id is not already a registry key or an index
target, as holds for every API-reachable state), the registration succeeds
with the next effect id, the name index is left untouched, and `get` and
`remove` afterwards resolve every name — including the effect's own —
exactly as before. -/
theorem c10_register_effect_never_indexes_name
    (ctx : ReactiveContext) (name : String) (deps : List String)
    (dep_ids : List NodeId)
    (hres : resolveDeps ctx.name_to_id deps = .ok dep_ids)
    (hnodangle : ∀ n, alookup ctx.name_to_id n ≠ some ctx.next_effect_id) :
    (ctx.register_effect name deps).1 = .ok ctx.next_effect_id ∧
    (ctx.register_effect name deps).2.name_to_id = ctx.name_to_id ∧
    (∀ n, (ctx.register_effect name deps).2.get n = ctx.get n) ∧
    (∀ n, ((ctx.register_effect name deps).2.remove n).1
      = (ctx.remove n).1) := by
  have hnodes : (ctx.register_effect name deps).2.nodes
      = upsert (subscribeAll ctx.nodes dep_ids ctx.next_effect_id)
          ctx.next_effect_id
          (.effect { id := ctx.next_effect_id
                     dependencies := hsExtend [] dep_ids
                     name := name, enabled := true }) := by
    simp [ReactiveContext.register_effect, hres]
  have hntid : (ctx.register_effect name deps).2.name_to_id
      = ctx.name_to_id := by
    simp [ReactiveContext.register_effect, hres]
  have hvals : (ctx.register_effect name deps).2.values = ctx.values := by
    simp [ReactiveContext.register_effect, hres]
  refine ⟨by simp [ReactiveContext.register_effect, hres], hntid, ?_, ?_⟩
  · intro n
    show getValue _ _ _ n = getValue _ _ _ n
    rw [hnodes, hntid, hvals]
    refine getValue_congr _ _ _ _ _ ?_
    intro j hj
    have hne : j ≠ ctx.next_effect_id := by
      intro hh
      exact hnodangle n (hh ▸ hj)
    rw [alookup_upsert_ne _ _ _ _ hne, nodeShape_subscribeAll]
  · intro n
    unfold ReactiveContext.remove
    rw [hntid]
    cases alookup ctx.name_to_id n <;> rfl

/-- **C10 witness**: with signal "s" registered (id 0),
`register_effect("s", ["s"], f)` — the effect's name colliding with the
signal's — succeeds with id 2000, and `get("s")` afterwards still returns
the signal's value. -/
theorem c10_witness :
    ((ReactiveContext.new.register_signal "s" (.integer 1)).2.register_effect
        "s" ["s"]).1 = .ok 2000 ∧
    ((ReactiveContext.new.register_signal "s" (.integer 1)).2.register_effect
        "s" ["s"]).2.get "s"
      = (ReactiveContext.new.register_signal "s" (.integer 1)).2.get "s" := by
  have hntid : (ReactiveContext.new.register_signal
      "s" (.integer 1)).2.name_to_id = [("s", 0)] := by decide
  have h := c10_register_effect_never_indexes_name
    (ReactiveContext.new.register_signal "s" (.integer 1)).2
    "s" ["s"] [0] (by decide)
    (by
      intro n
      rw [hntid]
      have hnei : (ReactiveContext.new.register_signal
          "s" (.integer 1)).2.next_effect_id = 2000 := by decide
      rw [hnei]
      by_cases hh : ("s" : String) = n <;> simp [alookup, hh])
  exact ⟨h.1, h.2.2.1 "s"⟩

/-! ## Toolkit for the propagation loop -/

theorem alookup_some_mem {α β : Type} [DecidableEq α]
    (m : List (α × β)) (k : α) (v : β) (h : alookup m k = some v) :
    (k, v) ∈ m := by
  induction m with
  | nil => cases h
  | cons kv rest ih =>
      obtain ⟨k1, v1⟩ := kv
      by_cases hk : k1 = k
      · subst hk
        simp only [alookup, if_pos rfl] at h
        cases h
        exact List.mem_cons_self _ _
      · simp only [alookup, if_neg hk] at h
        exact List.mem_cons_of_mem _ (ih h)

/-- Characterization of `enqueueNew`: it appends the same duplicate-free
block of fresh ids to both the visited set and the queue, the block's
elements come from the input and were unvisited, and every input id is
visited afterwards. -/
theorem enqueueNew_spec (xs : List NodeId) :
    ∀ (visited queue : List NodeId),
    ∃ new, (enqueueNew visited queue xs).1 = visited ++ new ∧
      (enqueueNew visited queue xs).2 = queue ++ new ∧
      new.Nodup ∧ (∀ x ∈ new, x ∈ xs ∧ x ∉ visited) ∧
      (∀ x ∈ xs, x ∈ visited ++ new) := by
  induction xs with
  | nil =>
      intro visited queue
      exact ⟨[], by simp [enqueueNew], by simp [enqueueNew], List.nodup_nil,
        by simp, by simp⟩
  | cons x xs ih =>
      intro visited queue
      by_cases hx : x ∈ visited
      · obtain ⟨new, h1, h2, h3, h4, h5⟩ := ih visited queue
        refine ⟨new, ?_, ?_, h3, ?_, ?_⟩
        · simpa [enqueueNew, hx] using h1
        · simpa [enqueueNew, hx] using h2
        · intro y hy
          exact ⟨List.mem_cons_of_mem _ (h4 y hy).1, (h4 y hy).2⟩
        · intro y hy
          rcases List.mem_cons.mp hy with rfl | hy'
          · exact List.mem_append.mpr (Or.inl hx)
          · exact h5 y hy'
      · obtain ⟨new, h1, h2, h3, h4, h5⟩ := ih (visited ++ [x]) (queue ++ [x])
        have hveq : (visited ++ [x]) ++ new = visited ++ x :: new := by simp
        have hqeq : (queue ++ [x]) ++ new = queue ++ x :: new := by simp
        refine ⟨x :: new, ?_, ?_, ?_, ?_, ?_⟩
        · rw [show enqueueNew visited queue (x :: xs)
              = enqueueNew (visited ++ [x]) (queue ++ [x]) xs from by
                simp [enqueueNew, hx]]
          rw [h1, hveq]
        · rw [show enqueueNew visited queue (x :: xs)
              = enqueueNew (visited ++ [x]) (queue ++ [x]) xs from by
                simp [enqueueNew, hx]]
          rw [h2, hqeq]
        · refine List.nodup_cons.mpr ⟨?_, h3⟩
          intro hxnew
          exact (h4 x hxnew).2 (List.mem_append.mpr (Or.inr (by simp)))
        · intro y hy
          rcases List.mem_cons.mp hy with rfl | hy'
          · exact ⟨List.mem_cons_self _ _, hx⟩
          · obtain ⟨hy1, hy2⟩ := h4 y hy'
            exact ⟨List.mem_cons_of_mem _ hy1,
              fun hyv => hy2 (List.mem_append.mpr (Or.inl hyv))⟩
        · intro y hy
          rcases List.mem_cons.mp hy with rfl | hy'
          · exact List.mem_append.mpr (Or.inr (List.mem_cons_self _ _))
          · have := h5 y hy'
            rw [hveq] at this
            exact this

/-- Filtering out an element that occurs in a list strictly shortens it. -/
theorem filter_ne_length_lt {a : NodeId} :
    ∀ {m : List NodeId}, a ∈ m →
      (m.filter (fun x => decide ¬(x = a))).length < m.length := by
  intro m
  induction m with
  | nil => intro h; cases h
  | cons b t ih =>
      intro h
      by_cases hb : b = a
      · subst hb
        have hle := List.length_filter_le (fun x => decide ¬(x = b)) t
        have hdrop : (b :: t).filter (fun x => decide ¬(x = b))
            = t.filter (fun x => decide ¬(x = b)) := by
          simp [List.filter_cons]
        rw [hdrop]
        simp only [List.length_cons]
        omega
      · have ha : a ∈ t := by
          rcases List.mem_cons.mp h with rfl | h'
          · exact absurd rfl hb
          · exact h'
        have hlt := ih ha
        have hkeep : (b :: t).filter (fun x => decide ¬(x = a))
            = b :: t.filter (fun x => decide ¬(x = a)) := by
          simp [List.filter_cons, hb]
        rw [hkeep]
        simp only [List.length_cons]
        omega

/-- `remAll` against an extended visited set factors through an extra
filter. -/
theorem remAll_append_cons (L visited : List NodeId) (a : NodeId) :
    remAll L (visited ++ [a])
      = (remAll L visited).filter (fun x => decide ¬(x = a)) := by
  unfold remAll
  rw [List.filter_filter]
  apply List.filter_congr
  intro x _
  have hiff : (x ∉ visited ++ [a]) ↔ (¬(x = a) ∧ x ∉ visited) := by
    simp [List.mem_append, not_or]
    tauto
  rw [show (decide (x ∉ visited ++ [a]))
        = decide (¬(x = a) ∧ x ∉ visited) from by
      rw [decide_eq_decide]
      exact hiff]
  rw [show decide (¬(x = a) ∧ x ∉ visited)
        = (decide ¬(x = a) && decide (x ∉ visited)) from by simp]

/-- Visiting an unvisited element of `L` strictly shrinks `remAll L`. -/
theorem remAll_length_lt (L visited : List NodeId) (a : NodeId)
    (haL : a ∈ L) (hav : a ∉ visited) :
    (remAll L (visited ++ [a])).length < (remAll L visited).length := by
  rw [remAll_append_cons]
  have ha' : a ∈ remAll L visited := by
    simp [remAll, List.mem_filter, haL, hav]
  exact filter_ne_length_lt ha'

/-- Adding a duplicate-free block of unvisited `L`-elements to the visited
set pays for itself: the remainder shrinks by at least the block length. -/
theorem remAll_progress (L : List NodeId) :
    ∀ (new visited : List NodeId), new.Nodup →
      (∀ x ∈ new, x ∈ L ∧ x ∉ visited) →
      new.length + (remAll L (visited ++ new)).length
        ≤ (remAll L visited).length := by
  intro new
  induction new with
  | nil => intro visited _ _; simp
  | cons a t ih =>
      intro visited hnd hmem
      have haL := (hmem a (List.mem_cons_self _ _)).1
      have hav := (hmem a (List.mem_cons_self _ _)).2
      have h1 : (remAll L (visited ++ [a])).length
          < (remAll L visited).length := remAll_length_lt L visited a haL hav
      have h2 := ih (visited ++ [a]) (List.nodup_cons.mp hnd).2 ?_
      · have heq : (visited ++ [a]) ++ t = visited ++ a :: t := by simp
        rw [heq] at h2
        simp only [List.length_cons]
        omega
      · intro x hx
        refine ⟨(hmem x (List.mem_cons_of_mem _ hx)).1, ?_⟩
        intro hxv
        rcases List.mem_append.mp hxv with hxv' | hxv'
        · exact (hmem x (List.mem_cons_of_mem _ hx)).2 hxv'
        · have : x = a := by simpa using hxv'
          exact (List.nodup_cons.mp hnd).1 (this ▸ hx)

/-- The subscriber list of any registered Computed is drawn from
`allSubs`. -/
theorem subscribers_mem_allSubs (nodes : List (NodeId × ReactiveNode))
    (id : NodeId) (c : ComputedNode)
    (h : alookup nodes id = some (.computed c)) :
    ∀ x ∈ c.subscribers, x ∈ allSubs nodes := by
  intro x hx
  have hmem : (id, ReactiveNode.computed c) ∈ nodes :=
    alookup_some_mem _ _ _ h
  unfold allSubs
  rw [List.mem_flatten]
  exact ⟨c.subscribers, List.mem_map.mpr ⟨(id, .computed c), hmem, rfl⟩, hx⟩

/-- Frame: an id that is already visited and no longer queued keeps its
value cell through the rest of the propagation loop (pops write only the
popped id's cell, and a visited id is never re-pushed). -/
theorem propagateGo_frame_value (nodes : List (NodeId × ReactiveNode))
    (ntid : List (String × NodeId)) :
    ∀ (fuel : Nat) (visited queue : List NodeId)
      (vals : List (NodeId × Value)) (log : List NodeId) (xid : NodeId),
      xid ∈ visited → xid ∉ queue →
      alookup (propagateGo nodes ntid fuel visited queue vals log).1 xid
        = alookup vals xid := by
  intro fuel
  induction fuel with
  | zero => intro visited queue vals log xid _ _; rfl
  | succ fuel ih =>
      intro visited queue vals log xid hv hq
      cases queue with
      | nil => rfl
      | cons id rest =>
          have hne : id ≠ xid := fun h => hq (h ▸ List.mem_cons_self _ _)
          have hqr : xid ∉ rest := fun h => hq (List.mem_cons_of_mem _ h)
          rcases hnode : alookup nodes id with _ | nd
          · simp only [propagateGo, hnode]
            exact ih visited rest vals log xid hv hqr
          · rcases nd with s0 | c0 | e0
            · simp only [propagateGo, hnode]
              exact ih visited rest vals log xid hv hqr
            · obtain ⟨new, h1, h2, h3, h4, h5⟩ :=
                enqueueNew_spec c0.subscribers visited rest
              simp only [propagateGo, hnode]
              rw [h1, h2]
              rw [ih (visited ++ new) (rest ++ new) _ _ xid
                    (List.mem_append.mpr (Or.inl hv))
                    (fun hmem => by
                      rcases List.mem_append.mp hmem with h' | h'
                      · exact hqr h'
                      · exact (h4 xid h').2 hv)]
              exact alookup_upsert_ne _ _ _ _ (Ne.symm hne)
            · simp only [propagateGo, hnode]
              exact ih visited rest vals _ xid hv hqr

/-- Frame: the propagation loop never writes the value cell of a Signal
(only popped ids whose registry entry is a Computed are written). -/
theorem propagateGo_frame_signal (nodes : List (NodeId × ReactiveNode))
    (ntid : List (String × NodeId)) :
    ∀ (fuel : Nat) (visited queue : List NodeId)
      (vals : List (NodeId × Value)) (log : List NodeId)
      (j : NodeId) (s : SignalNode),
      alookup nodes j = some (.signal s) →
      alookup (propagateGo nodes ntid fuel visited queue vals log).1 j
        = alookup vals j := by
  intro fuel
  induction fuel with
  | zero => intro visited queue vals log j s _; rfl
  | succ fuel ih =>
      intro visited queue vals log j s hs
      cases queue with
      | nil => rfl
      | cons id rest =>
          rcases hnode : alookup nodes id with _ | nd
          · simp only [propagateGo, hnode]
            exact ih visited rest vals log j s hs
          · rcases nd with s0 | c0 | e0
            · simp only [propagateGo, hnode]
              exact ih visited rest vals log j s hs
            · have hne : j ≠ id := by
                intro h
                rw [h, hnode] at hs
                cases hs
              simp only [propagateGo, hnode]
              rw [ih _ _ _ _ j s hs]
              exact alookup_upsert_ne _ _ _ _ hne
            · simp only [propagateGo, hnode]
              exact ih visited rest vals _ j s hs

/-- Frame: the run log never gains entries for an id that is already
visited and no longer queued. -/
theorem propagateGo_frame_log (nodes : List (NodeId × ReactiveNode))
    (ntid : List (String × NodeId)) :
    ∀ (fuel : Nat) (visited queue : List NodeId)
      (vals : List (NodeId × Value)) (log : List NodeId) (xid : NodeId),
      xid ∈ visited → xid ∉ queue →
      (propagateGo nodes ntid fuel visited queue vals log).2.count xid
        = log.count xid := by
  intro fuel
  induction fuel with
  | zero => intro visited queue vals log xid _ _; rfl
  | succ fuel ih =>
      intro visited queue vals log xid hv hq
      cases queue with
      | nil => rfl
      | cons id rest =>
          have hne : id ≠ xid := fun h => hq (h ▸ List.mem_cons_self _ _)
          have hqr : xid ∉ rest := fun h => hq (List.mem_cons_of_mem _ h)
          have hcnt : (log ++ [id]).count xid = log.count xid := by
            simp [List.count_append, List.count_singleton', hne]
          rcases hnode : alookup nodes id with _ | nd
          · simp only [propagateGo, hnode]
            exact ih visited rest vals log xid hv hqr
          · rcases nd with s0 | c0 | e0
            · simp only [propagateGo, hnode]
              exact ih visited rest vals log xid hv hqr
            · obtain ⟨new, h1, h2, h3, h4, h5⟩ :=
                enqueueNew_spec c0.subscribers visited rest
              simp only [propagateGo, hnode]
              rw [h1, h2]
              rw [ih (visited ++ new) (rest ++ new) _ _ xid
                    (List.mem_append.mpr (Or.inl hv))
                    (fun hmem => by
                      rcases List.mem_append.mp hmem with h' | h'
                      · exact hqr h'
                      · exact (h4 xid h').2 hv)]
              exact hcnt
            · simp only [propagateGo, hnode]
              by_cases hen : e0.enabled <;>
                simp only [hen, if_true, if_false, Bool.false_eq_true] <;>
                rw [ih visited rest vals _ xid hv hqr]
              · exact hcnt

/-- `evalCompFn` of a closure that reads only Signal names is unchanged
between two value heaps that agree on every Signal's cell. -/
theorem evalCompFn_congr (nodes : List (NodeId × ReactiveNode))
    (ntid : List (String × NodeId))
    (vals₁ vals₂ : List (NodeId × Value)) :
    ∀ f : CompFn, readsOnlySignals nodes ntid f →
      (∀ j s, alookup nodes j = some (.signal s) →
        alookup vals₁ j = alookup vals₂ j) →
      evalCompFn nodes ntid vals₁ f = evalCompFn nodes ntid vals₂ f := by
  intro f
  induction f with
  | const v => intro _ _; rfl
  | readName n =>
      intro hro hagree
      obtain ⟨i, s, hi, hs⟩ := hro
      simp [evalCompFn, getValue, hi, hs, hagree i s hs]
  | add a b iha ihb =>
      intro hro hagree
      simp [evalCompFn, iha hro.1 hagree, ihb hro.2 hagree]

/-- One computed-node pop strictly decreases the loop measure even after
pushing the node's subscribers. -/
theorem pgMeasure_step_computed (nodes : List (NodeId × ReactiveNode))
    (visited rest : List NodeId) (id : NodeId) (c0 : ComputedNode)
    (hnode : alookup nodes id = some (.computed c0)) :
    pgMeasure nodes (enqueueNew visited rest c0.subscribers).1
        (enqueueNew visited rest c0.subscribers).2 + 1
      ≤ pgMeasure nodes visited (id :: rest) := by
  obtain ⟨new, h1, h2, h3, h4, h5⟩ :=
    enqueueNew_spec c0.subscribers visited rest
  rw [h1, h2]
  unfold pgMeasure
  have hprog := remAll_progress (allSubs nodes) new visited h3
    (fun x hx =>
      ⟨subscribers_mem_allSubs nodes id c0 hnode x (h4 x hx).1, (h4 x hx).2⟩)
  simp only [List.length_append, List.length_cons]
  omega

theorem mem_hsExtend_left {α : Type} [DecidableEq α] {x : α} :
    ∀ (xs s : List α), x ∈ s → x ∈ hsExtend s xs := by
  intro xs
  induction xs with
  | nil => intro s h; exact h
  | cons y ys ih =>
      intro s h
      have hx : x ∈ hsInsert s y := by
        unfold hsInsert
        by_cases hy : y ∈ s
        · simpa [hy] using h
        · simp [hy, List.mem_append, h]
      simpa [hsExtend, List.foldl_cons] using ih (hsInsert s y) hx

theorem mem_hsExtend_arg {α : Type} [DecidableEq α] {x : α} :
    ∀ (xs s : List α), x ∈ xs → x ∈ hsExtend s xs := by
  intro xs
  induction xs with
  | nil => intro s h; cases h
  | cons y ys ih =>
      intro s h
      rcases List.mem_cons.mp h with rfl | h'
      · have hx : x ∈ hsInsert s x := by
          unfold hsInsert
          by_cases hy : x ∈ s
          · simp [hy]
          · simp [hy, List.mem_append]
        simpa [hsExtend, List.foldl_cons] using
          mem_hsExtend_left ys (hsInsert s x) hx
      · simpa [hsExtend, List.foldl_cons] using ih (hsInsert s y) h'

/-- Core of the propagation proof: a queued id whose registry entry is a
Computed is popped exactly once; its cell afterwards holds its closure
evaluated against some mid-loop heap whose Signal cells agree with the
final heap, and the run log gains exactly one entry for it. -/
theorem propagateGo_computed_once (nodes : List (NodeId × ReactiveNode))
    (ntid : List (String × NodeId)) :
    ∀ (fuel : Nat) (visited queue : List NodeId)
      (vals : List (NodeId × Value)) (log : List NodeId)
      (cid : NodeId) (c : ComputedNode),
      pgMeasure nodes visited queue ≤ fuel →
      queue.Nodup → (∀ x ∈ queue, x ∈ visited) →
      cid ∈ queue →
      alookup nodes cid = some (.computed c) →
      (∃ vmid,
        alookup (propagateGo nodes ntid fuel visited queue vals log).1 cid
          = some (evalCompFn nodes ntid vmid c.compute_fn) ∧
        (∀ j s, alookup nodes j = some (.signal s) →
          alookup (propagateGo nodes ntid fuel visited queue vals log).1 j
            = alookup vmid j)) ∧
      (propagateGo nodes ntid fuel visited queue vals log).2.count cid
        = log.count cid + 1 := by
  intro fuel
  induction fuel with
  | zero =>
      intro visited queue vals log cid c hfuel _ _ hmem _
      exfalso
      have hq : queue.length = 0 := by
        unfold pgMeasure at hfuel
        omega
      rw [List.length_eq_zero] at hq
      subst hq
      cases hmem
  | succ fuel ih =>
      intro visited queue vals log cid c hfuel hnd hqv hmem hc
      cases queue with
      | nil => cases hmem
      | cons id rest =>
          by_cases hid : id = cid
          · subst hid
            obtain ⟨new, h1, h2, h3, h4, h5⟩ :=
              enqueueNew_spec c.subscribers visited rest
            have hv : id ∈ visited := hqv id (List.mem_cons_self _ _)
            have hrest : id ∉ rest := (List.nodup_cons.mp hnd).1
            have hnotq : id ∉ rest ++ new := by
              intro h'
              rcases List.mem_append.mp h' with h'' | h''
              · exact hrest h''
              · exact (h4 id h'').2 hv
            constructor
            · refine ⟨vals, ?_, ?_⟩
              · simp only [propagateGo, hc]
                rw [h1, h2]
                rw [propagateGo_frame_value nodes ntid fuel _ _ _ _ id
                      (List.mem_append.mpr (Or.inl hv)) hnotq]
                exact alookup_upsert_self _ _ _
              · intro j s hs
                have hne : j ≠ id := by
                  intro h'
                  rw [h', hc] at hs
                  cases hs
                simp only [propagateGo, hc]
                rw [h1, h2]
                rw [propagateGo_frame_signal nodes ntid fuel _ _ _ _ j s hs]
                exact alookup_upsert_ne _ _ _ _ hne
            · simp only [propagateGo, hc]
              rw [h1, h2]
              rw [propagateGo_frame_log nodes ntid fuel _ _ _ _ id
                    (List.mem_append.mpr (Or.inl hv)) hnotq]
              simp [List.count_append, List.count_singleton']
          · have hmem' : cid ∈ rest := by
              rcases List.mem_cons.mp hmem with h' | h'
              · exact absurd h'.symm hid
              · exact h'
            have hcidne : cid ≠ id := fun h => hid h.symm
            have hndr : rest.Nodup := (List.nodup_cons.mp hnd).2
            have hqvr : ∀ x ∈ rest, x ∈ visited :=
              fun x hx => hqv x (List.mem_cons_of_mem _ hx)
            have hfuelr : pgMeasure nodes visited rest ≤ fuel := by
              unfold pgMeasure at hfuel ⊢
              simp only [List.length_cons] at hfuel
              omega
            rcases hnode : alookup nodes id with _ | nd
            · simp only [propagateGo, hnode]
              exact ih visited rest vals log cid c hfuelr hndr hqvr hmem' hc
            · rcases nd with s0 | c0 | e0
              · simp only [propagateGo, hnode]
                exact ih visited rest vals log cid c hfuelr hndr hqvr hmem' hc
              · obtain ⟨new, h1, h2, h3, h4, h5⟩ :=
                  enqueueNew_spec c0.subscribers visited rest
                have hstep := pgMeasure_step_computed nodes visited rest id c0
                  hnode
                rw [h1, h2] at hstep
                have hfuel' : pgMeasure nodes (visited ++ new) (rest ++ new)
                    ≤ fuel := by omega
                have hnd' : (rest ++ new).Nodup := by
                  rw [List.nodup_append]
                  refine ⟨hndr, h3, ?_⟩
                  intro a ha hanew
                  exact (h4 a hanew).2 (hqvr a ha)
                have hqv' : ∀ x ∈ rest ++ new, x ∈ visited ++ new := by
                  intro x hx
                  rcases List.mem_append.mp hx with h' | h'
                  · exact List.mem_append.mpr (Or.inl (hqvr x h'))
                  · exact List.mem_append.mpr (Or.inr h')
                have hres := ih (visited ++ new) (rest ++ new)
                  (upsert vals id (evalCompFn nodes ntid vals c0.compute_fn))
                  (log ++ [id]) cid c hfuel' hnd'
                  hqv' (List.mem_append.mpr (Or.inl hmem')) hc
                simp only [propagateGo, hnode]
                rw [h1, h2]
                refine ⟨hres.1, ?_⟩
                rw [hres.2]
                simp [List.count_append, List.count_singleton', hcidne]
              · have hres := ih visited rest vals
                  (if e0.enabled then log ++ [id] else log) cid c
                  hfuelr hndr hqvr hmem' hc
                simp only [propagateGo, hnode]
                refine ⟨hres.1, ?_⟩
                rw [hres.2]
                by_cases hen : e0.enabled <;>
                  simp [hen, List.count_append, List.count_singleton', hcidne]

/-- A queued id whose registry entry is an enabled Effect is run exactly
once by the propagation loop. -/
theorem propagateGo_effect_once (nodes : List (NodeId × ReactiveNode))
    (ntid : List (String × NodeId)) :
    ∀ (fuel : Nat) (visited queue : List NodeId)
      (vals : List (NodeId × Value)) (log : List NodeId)
      (eid : NodeId) (e : EffectNode),
      pgMeasure nodes visited queue ≤ fuel →
      queue.Nodup → (∀ x ∈ queue, x ∈ visited) →
      eid ∈ queue →
      alookup nodes eid = some (.effect e) → e.enabled = true →
      (propagateGo nodes ntid fuel visited queue vals log).2.count eid
        = log.count eid + 1 := by
  intro fuel
  induction fuel with
  | zero =>
      intro visited queue vals log eid e hfuel _ _ hmem _ _
      exfalso
      have hq : queue.length = 0 := by
        unfold pgMeasure at hfuel
        omega
      rw [List.length_eq_zero] at hq
      subst hq
      cases hmem
  | succ fuel ih =>
      intro visited queue vals log eid e hfuel hnd hqv hmem he hen
      cases queue with
      | nil => cases hmem
      | cons id rest =>
          by_cases hid : id = eid
          · subst hid
            have hv : id ∈ visited := hqv id (List.mem_cons_self _ _)
            have hrest : id ∉ rest := (List.nodup_cons.mp hnd).1
            simp only [propagateGo, he, hen, if_true]
            rw [propagateGo_frame_log nodes ntid fuel _ _ _ _ id hv hrest]
            simp [List.count_append, List.count_singleton']
          · have hmem' : eid ∈ rest := by
              rcases List.mem_cons.mp hmem with h' | h'
              · exact absurd h'.symm hid
              · exact h'
            have heidne : eid ≠ id := fun h => hid h.symm
            have hndr : rest.Nodup := (List.nodup_cons.mp hnd).2
            have hqvr : ∀ x ∈ rest, x ∈ visited :=
              fun x hx => hqv x (List.mem_cons_of_mem _ hx)
            have hfuelr : pgMeasure nodes visited rest ≤ fuel := by
              unfold pgMeasure at hfuel ⊢
              simp only [List.length_cons] at hfuel
              omega
            rcases hnode : alookup nodes id with _ | nd
            · simp only [propagateGo, hnode]
              exact ih visited rest vals log eid e hfuelr hndr hqvr hmem' he
                hen
            · rcases nd with s0 | c0 | e0
              · simp only [propagateGo, hnode]
                exact ih visited rest vals log eid e hfuelr hndr hqvr hmem'
                  he hen
              · obtain ⟨new, h1, h2, h3, h4, h5⟩ :=
                  enqueueNew_spec c0.subscribers visited rest
                have hstep := pgMeasure_step_computed nodes visited rest id c0
                  hnode
                rw [h1, h2] at hstep
                have hfuel' : pgMeasure nodes (visited ++ new) (rest ++ new)
                    ≤ fuel := by omega
                have hnd' : (rest ++ new).Nodup := by
                  rw [List.nodup_append]
                  refine ⟨hndr, h3, ?_⟩
                  intro a ha hanew
                  exact (h4 a hanew).2 (hqvr a ha)
                have hqv' : ∀ x ∈ rest ++ new, x ∈ visited ++ new := by
                  intro x hx
                  rcases List.mem_append.mp hx with h' | h'
                  · exact List.mem_append.mpr (Or.inl (hqvr x h'))
                  · exact List.mem_append.mpr (Or.inr h')
                have hres := ih (visited ++ new) (rest ++ new)
                  (upsert vals id (evalCompFn nodes ntid vals c0.compute_fn))
                  (log ++ [id]) eid e hfuel' hnd'
                  hqv' (List.mem_append.mpr (Or.inl hmem')) he hen
                simp only [propagateGo, hnode]
                rw [h1, h2, hres]
                simp [List.count_append, List.count_singleton', heidne]
              · have hres := ih visited rest vals
                  (if e0.enabled then log ++ [id] else log) eid e
                  hfuelr hndr hqvr hmem' he hen
                simp only [propagateGo, hnode]
                rw [hres]
                by_cases hen0 : e0.enabled <;>
                  simp [hen0, List.count_append, List.count_singleton',
                    heidne]

/-- `propagate_changes` recomputes a Computed listed among the changed ids
exactly once, against a heap whose Signal cells already equal the final
ones. -/
theorem propagate_changes_computed (ctx : ReactiveContext)
    (changed : List NodeId) (cid : NodeId) (c : ComputedNode)
    (hmem : cid ∈ changed)
    (hc : alookup ctx.nodes cid = some (.computed c)) :
    (∃ vmid,
      alookup (ctx.propagate_changes changed).values cid
        = some (evalCompFn ctx.nodes ctx.name_to_id vmid c.compute_fn) ∧
      (∀ j s, alookup ctx.nodes j = some (.signal s) →
        alookup (ctx.propagate_changes changed).values j
          = alookup vmid j)) ∧
    (ctx.propagate_changes changed).runLog.count cid
      = ctx.runLog.count cid + 1 := by
  obtain ⟨new, h1, h2, h3, h4, h5⟩ := enqueueNew_spec changed [] []
  have hq1 : (enqueueNew [] [] changed).1 = new := by simpa using h1
  have hq2 : (enqueueNew [] [] changed).2 = new := by simpa using h2
  have hcid : cid ∈ (enqueueNew [] [] changed).2 := by
    rw [hq2]
    simpa using h5 cid hmem
  have hnd : (enqueueNew [] [] changed).2.Nodup := by
    rw [hq2]
    exact h3
  have hqv : ∀ x ∈ (enqueueNew [] [] changed).2,
      x ∈ (enqueueNew [] [] changed).1 := by
    intro x hx
    rw [hq1]
    rw [hq2] at hx
    exact hx
  exact propagateGo_computed_once ctx.nodes ctx.name_to_id
    (pgMeasure ctx.nodes (enqueueNew [] [] changed).1
      (enqueueNew [] [] changed).2)
    (enqueueNew [] [] changed).1 (enqueueNew [] [] changed).2
    ctx.values ctx.runLog cid c (le_refl _) hnd hqv hcid hc

/-- `propagate_changes` runs an enabled Effect listed among the changed ids
exactly once. -/
theorem propagate_changes_effect (ctx : ReactiveContext)
    (changed : List NodeId) (eid : NodeId) (e : EffectNode)
    (hmem : eid ∈ changed)
    (he : alookup ctx.nodes eid = some (.effect e))
    (hen : e.enabled = true) :
    (ctx.propagate_changes changed).runLog.count eid
      = ctx.runLog.count eid + 1 := by
  obtain ⟨new, h1, h2, h3, h4, h5⟩ := enqueueNew_spec changed [] []
  have hq1 : (enqueueNew [] [] changed).1 = new := by simpa using h1
  have hq2 : (enqueueNew [] [] changed).2 = new := by simpa using h2
  have heid : eid ∈ (enqueueNew [] [] changed).2 := by
    rw [hq2]
    simpa using h5 eid hmem
  have hnd : (enqueueNew [] [] changed).2.Nodup := by
    rw [hq2]
    exact h3
  have hqv : ∀ x ∈ (enqueueNew [] [] changed).2,
      x ∈ (enqueueNew [] [] changed).1 := by
    intro x hx
    rw [hq1]
    rw [hq2] at hx
    exact hx
  exact propagateGo_effect_once ctx.nodes ctx.name_to_id
    (pgMeasure ctx.nodes (enqueueNew [] [] changed).1
      (enqueueNew [] [] changed).2)
    (enqueueNew [] [] changed).1 (enqueueNew [] [] changed).2
    ctx.values ctx.runLog eid e (le_refl _) hnd hqv heid he hen

/-! ## Claim C8: synchronous propagation to subscribed Computeds -/

/-- **C8 counterexample.**  Signal `s`, computed `e = s`, computed `d = e`,
computed `c = s + d` (so `c`'s dependency set contains `s` directly).
Propagation seeds the queue with `s`'s subscribers `[e, c]` and pops `c`
before `d` has been recomputed, so `c` caches `2 + 1 = 3` while its compute
function over the fully updated graph yields `2 + 2 = 4`: the claim that
`get(c)` equals the compute function's result over the updated graph is
false on the code. -/
theorem c8_stale_sibling_counterexample :
    (((((ReactiveContext.new.register_signal "s" (.integer 1)).2.register_computed
        "e" ["s"] (.readName "s")).2.register_computed
        "d" ["e"] (.readName "e")).2.register_computed
        "c" ["s", "d"] (.add (.readName "s") (.readName "d"))).2.set
        "s" (.integer 2)).1 = .ok () ∧
    (((((ReactiveContext.new.register_signal "s" (.integer 1)).2.register_computed
        "e" ["s"] (.readName "s")).2.register_computed
        "d" ["e"] (.readName "e")).2.register_computed
        "c" ["s", "d"] (.add (.readName "s") (.readName "d"))).2.set
        "s" (.integer 2)).2.get "c" = .ok (.integer 3) ∧
    evalCompFn
      (((((ReactiveContext.new.register_signal "s" (.integer 1)).2.register_computed
        "e" ["s"] (.readName "s")).2.register_computed
        "d" ["e"] (.readName "e")).2.register_computed
        "c" ["s", "d"] (.add (.readName "s") (.readName "d"))).2.set
        "s" (.integer 2)).2.nodes
      (((((ReactiveContext.new.register_signal "s" (.integer 1)).2.register_computed
        "e" ["s"] (.readName "s")).2.register_computed
        "d" ["e"] (.readName "e")).2.register_computed
        "c" ["s", "d"] (.add (.readName "s") (.readName "d"))).2.set
        "s" (.integer 2)).2.name_to_id
      (((((ReactiveContext.new.register_signal "s" (.integer 1)).2.register_computed
        "e" ["s"] (.readName "s")).2.register_computed
        "d" ["e"] (.readName "e")).2.register_computed
        "c" ["s", "d"] (.add (.readName "s") (.readName "d"))).2.set
        "s" (.integer 2)).2.values
      (.add (.readName "s") (.readName "d")) = .integer 4 := by
  decide

/-- **C8 amended.**  For a registered Computed `c` whose dependency set
contains signal `s` (and which is therefore in `s`'s subscriber set),
outside batch mode `set(s, v)` recomputes `c` exactly once before
returning; and when `c`'s compute function reads only names bound to
Signals, `get(c)` immediately afterwards equals the compute function's
result over the updated graph.  (The restriction on the compute function is
forced by the counterexample: a compute function reading a sibling Computed
may be recomputed before that sibling, the spec's documented propagation
order caveat.) -/
theorem c8_amended_set_recomputes_signal_reader
    (ctx : ReactiveContext) (sname cname : String) (sid cid : NodeId)
    (sNode : SignalNode) (c : ComputedNode) (v : Value)
    (hbatch : ctx.batch_mode = false)
    (hsname : alookup ctx.name_to_id sname = some sid)
    (hs : alookup ctx.nodes sid = some (.signal sNode))
    (hcname : alookup ctx.name_to_id cname = some cid)
    (hc : alookup ctx.nodes cid = some (.computed c))
    (_hdep : sid ∈ c.dependencies)
    (hsub : cid ∈ sNode.subscribers)
    (hro : readsOnlySignals ctx.nodes ctx.name_to_id c.compute_fn) :
    (ctx.set sname v).1 = .ok () ∧
    (ctx.set sname v).2.runLog.count cid = ctx.runLog.count cid + 1 ∧
    (ctx.set sname v).2.get cname
      = .ok (evalCompFn ctx.nodes ctx.name_to_id (ctx.set sname v).2.values
               c.compute_fn) := by
  have hset : ctx.set sname v
      = (.ok (),
         ({ ctx with values := upsert ctx.values sid v
              } : ReactiveContext).propagate_changes sNode.subscribers) := by
    simp [ReactiveContext.set, hsname, hs, hbatch]
  obtain ⟨⟨vmid, hval, hagree⟩, hcount⟩ :=
    propagate_changes_computed
      ({ ctx with values := upsert ctx.values sid v }) sNode.subscribers
      cid c hsub hc
  refine ⟨by rw [hset], ?_, ?_⟩
  · rw [hset]
    exact hcount
  · rw [hset]
    show getValue
        (({ ctx with values := upsert ctx.values sid v
            } : ReactiveContext).propagate_changes sNode.subscribers).nodes
        (({ ctx with values := upsert ctx.values sid v
            } : ReactiveContext).propagate_changes sNode.subscribers).name_to_id
        (({ ctx with values := upsert ctx.values sid v
            } : ReactiveContext).propagate_changes sNode.subscribers).values
        cname
      = .ok (evalCompFn ctx.nodes ctx.name_to_id
          (({ ctx with values := upsert ctx.values sid v
              } : ReactiveContext).propagate_changes sNode.subscribers).values
          c.compute_fn)
    have hnodesP : (({ ctx with values := upsert ctx.values sid v
        } : ReactiveContext).propagate_changes sNode.subscribers).nodes
        = ctx.nodes := rfl
    have hntidP : (({ ctx with values := upsert ctx.values sid v
        } : ReactiveContext).propagate_changes sNode.subscribers).name_to_id
        = ctx.name_to_id := rfl
    rw [hnodesP, hntidP]
    simp only [getValue, hcname, hc]
    dsimp only at hval hagree
    rw [hval]
    have hcongr := evalCompFn_congr ctx.nodes ctx.name_to_id vmid
      (({ ctx with values := upsert ctx.values sid v
          } : ReactiveContext).propagate_changes sNode.subscribers).values
      c.compute_fn hro
      (fun j s hsj => (hagree j s hsj).symm)
    rw [Option.getD_some, hcongr]

/-- **C8 amended, witness**: signal `x` (id 0), computed `double` over
`[x]` with closure `x + x`; `set(x, 7)` recomputes `double` once and
`get(double)` returns 14, the closure over the updated graph. -/
theorem c8_amended_witness :
    (((ReactiveContext.new.register_signal "x" (.integer 10)).2.register_computed
        "double" ["x"] (.add (.readName "x") (.readName "x"))).2.set
        "x" (.integer 7)).1 = .ok () ∧
    ((((ReactiveContext.new.register_signal "x" (.integer 10)).2.register_computed
        "double" ["x"] (.add (.readName "x") (.readName "x"))).2.set
        "x" (.integer 7)).2.get "double") = .ok (.integer 14) := by
  have h := c8_amended_set_recomputes_signal_reader
    ((ReactiveContext.new.register_signal "x" (.integer 10)).2.register_computed
      "double" ["x"] (.add (.readName "x") (.readName "x"))).2
    "x" "double" 0 1000
    { id := 0, subscribers := [1000], name := "x" }
    { id := 1000, dependencies := [0], subscribers := [],
      compute_fn := .add (.readName "x") (.readName "x"), name := "double" }
    (.integer 7)
    (by decide) (by decide) (by decide) (by decide) (by decide) (by decide)
    (by decide)
    ⟨⟨0, { id := 0, subscribers := [1000], name := "x" }, by decide,
       by decide⟩,
     ⟨0, { id := 0, subscribers := [1000], name := "x" }, by decide,
       by decide⟩⟩
  exact ⟨h.1, h.2.2.trans (by decide)⟩

/-! ## Claim C9: batching coalesces effect runs -/

/-- **C9.**  For signals `a`, `b` and an enabled Effect `e` subscribed to
both (its dependency set containing both, as registration makes these
coincide), the sequence `begin_batch(); set(a, v1); set(b, v2); end_batch()`
leaves the run log untouched during both `set` calls and gives `e` exactly
one additional run during `end_batch`. -/
theorem c9_batched_effect_runs_once
    (ctx : ReactiveContext) (aname bname : String) (aid bid eid : NodeId)
    (sa sb : SignalNode) (e : EffectNode) (v1 v2 : Value)
    (ha : alookup ctx.name_to_id aname = some aid)
    (hsa : alookup ctx.nodes aid = some (.signal sa))
    (hb : alookup ctx.name_to_id bname = some bid)
    (hsb : alookup ctx.nodes bid = some (.signal sb))
    (he : alookup ctx.nodes eid = some (.effect e))
    (_hdepa : aid ∈ e.dependencies) (_hdepb : bid ∈ e.dependencies)
    (hen : e.enabled = true)
    (hsuba : eid ∈ sa.subscribers) (_hsubb : eid ∈ sb.subscribers) :
    (ctx.begin_batch.set aname v1).1 = .ok () ∧
    (ctx.begin_batch.set aname v1).2.runLog = ctx.runLog ∧
    ((ctx.begin_batch.set aname v1).2.set bname v2).1 = .ok () ∧
    ((ctx.begin_batch.set aname v1).2.set bname v2).2.runLog = ctx.runLog ∧
    ((ctx.begin_batch.set aname v1).2.set bname v2).2.end_batch.1
      = .ok () ∧
    ((ctx.begin_batch.set aname v1).2.set bname v2).2.end_batch.2.runLog.count
        eid
      = ctx.runLog.count eid + 1 := by
  have hset1 : ctx.begin_batch.set aname v1
      = (.ok (),
         { ctx with batch_mode := true
                    values := upsert ctx.values aid v1
                    pending_updates :=
                      hsExtend ctx.pending_updates sa.subscribers }) := by
    simp [ReactiveContext.set, ReactiveContext.begin_batch, ha, hsa]
  have hset2 : ((ctx.begin_batch.set aname v1).2.set bname v2)
      = (.ok (),
         { ctx with batch_mode := true
                    values := upsert (upsert ctx.values aid v1) bid v2
                    pending_updates :=
                      hsExtend (hsExtend ctx.pending_updates sa.subscribers)
                        sb.subscribers }) := by
    rw [hset1]
    simp [ReactiveContext.set, hb, hsb]
  have hpend : eid ∈ hsExtend (hsExtend ctx.pending_updates sa.subscribers)
      sb.subscribers :=
    mem_hsExtend_left _ _ (mem_hsExtend_arg _ _ hsuba)
  refine ⟨by rw [hset1], by rw [hset1], by rw [hset2], by rw [hset2], ?_, ?_⟩
  · rw [hset2]
    rfl
  · rw [hset2]
    show (ReactiveContext.propagate_changes _ _).runLog.count eid = _
    exact propagate_changes_effect _ _ eid e hpend he hen

/-- **C9 witness**: signals `a`, `b`, effect `e` over both (id 2000, run
once at registration, so the log starts as `[2000]`); after the batched
pair of sets and `end_batch`, the log counts exactly one more run of
2000. -/
theorem c9_witness :
    ((((ReactiveContext.new.register_signal "a" (.integer 1)).2.register_signal
        "b" (.integer 2)).2.register_effect "e" ["a", "b"]).2.begin_batch.set
        "a" (.integer 10)).2.set "b" (.integer 20)
      |>.2.end_batch.2.runLog.count 2000
    = (((ReactiveContext.new.register_signal "a" (.integer 1)).2.register_signal
        "b" (.integer 2)).2.register_effect "e" ["a", "b"]).2.runLog.count 2000
        + 1 := by
  have h := c9_batched_effect_runs_once
    (((ReactiveContext.new.register_signal "a" (.integer 1)).2.register_signal
        "b" (.integer 2)).2.register_effect "e" ["a", "b"]).2
    "a" "b" 0 1 2000
    { id := 0, subscribers := [2000], name := "a" }
    { id := 1, subscribers := [2000], name := "b" }
    { id := 2000, dependencies := [0, 1], name := "e", enabled := true }
    (.integer 10) (.integer 20)
    (by decide) (by decide) (by decide) (by decide) (by decide) (by decide)
    (by decide) (by decide) (by decide) (by decide)
  exact h.2.2.2.2.2

/-! ## Claim C7: per-kind id counters and id collisions -/

theorem alookup_eq_none_of_keys {α β : Type} [DecidableEq α]
    (m : List (α × β)) (k : α) (h : ∀ p ∈ m, p.1 ≠ k) :
    alookup m k = none := by
  induction m with
  | nil => rfl
  | cons kv rest ih =>
      have hk : kv.1 ≠ k := h kv (List.mem_cons_self _ _)
      simp only [alookup, if_neg hk]
      exact ih (fun p hp => h p (List.mem_cons_of_mem _ hp))

theorem upsert_eq_append {α β : Type} [DecidableEq α]
    (m : List (α × β)) (k : α) (v : β) (h : alookup m k = none) :
    upsert m k v = m ++ [(k, v)] := by
  induction m with
  | nil => rfl
  | cons kv rest ih =>
      by_cases hk : kv.1 = k
      · rw [alookup, if_pos hk] at h
        cases h
      · rw [alookup, if_neg hk] at h
        simp only [upsert, if_neg hk, List.cons_append]
        rw [ih h]

theorem alookup_append_left {α β : Type} [DecidableEq α]
    (l1 l2 : List (α × β)) (k : α) (v : β) (h : alookup l1 k = some v) :
    alookup (l1 ++ l2) k = some v := by
  induction l1 with
  | nil => cases h
  | cons kv rest ih =>
      by_cases hk : kv.1 = k
      · rw [alookup, if_pos hk] at h
        simp only [List.cons_append, alookup, if_pos hk]
        exact h
      · rw [alookup, if_neg hk] at h
        simp only [List.cons_append, alookup, if_neg hk]
        exact ih h

theorem alookup_append_right {α β : Type} [DecidableEq α]
    (l1 l2 : List (α × β)) (k : α) (h : alookup l1 k = none) :
    alookup (l1 ++ l2) k = alookup l2 k := by
  induction l1 with
  | nil => rfl
  | cons kv rest ih =>
      by_cases hk : kv.1 = k
      · rw [alookup, if_pos hk] at h
        cases h
      · rw [alookup, if_neg hk] at h
        simp only [List.cons_append, alookup, if_neg hk]
        exact ih h

theorem aName_inj {i j : Nat} (h : aName i = aName j) : i = j := by
  have hdata : List.replicate i 'a' = List.replicate j 'a' :=
    congrArg String.data h
  have := congrArg List.length hdata
  simpa using this

theorem aName_ne_c (i : Nat) : aName i ≠ "c" := by
  intro h
  have hdata : List.replicate i 'a' = ['c'] := congrArg String.data h
  rcases i with _ | i
  · cases hdata
  · rcases i with _ | i
    · cases hdata
    · cases hdata

/-- No entry of the signal-name index matches `aName n` when `n` is out of
range. -/
theorem alookup_sig_index_none (n : Nat) (k : String)
    (hk : ∀ i, i < n → aName i ≠ k) :
    alookup ((List.range n).map (fun i => (aName i, i))) k = none := by
  apply alookup_eq_none_of_keys
  intro p hp
  obtain ⟨i, hi, rfl⟩ := List.mem_map.mp hp
  exact hk i (List.mem_range.mp hi)

theorem alookup_sig_index_some (n j : Nat) (h : j < n) :
    alookup ((List.range n).map (fun i => (aName i, i))) (aName j)
      = some j := by
  induction n with
  | zero => omega
  | succ n ih =>
      rw [List.range_succ, List.map_append]
      by_cases hj : j < n
      · exact alookup_append_left _ _ _ _ (ih hj)
      · have hjn : j = n := by omega
        subst hjn
        rw [alookup_append_right]
        · simp [alookup]
        · exact alookup_sig_index_none _ _
            (fun i hi hcontra => by
              have := aName_inj hcontra
              omega)

theorem runRegs_append (ops1 : List RegOp) :
    ∀ (ctx : ReactiveContext) (ops2 : List RegOp),
    runRegs ctx (ops1 ++ ops2)
      = ((runRegs (runRegs ctx ops1).1 ops2).1,
         (runRegs ctx ops1).2 ++ (runRegs (runRegs ctx ops1).1 ops2).2) := by
  induction ops1 with
  | nil => intro ctx ops2; simp [runRegs]
  | cons op rest ih =>
      intro ctx ops2
      simp only [List.cons_append, runRegs]
      rw [show rest.append ops2 = rest ++ ops2 from rfl, ih]

/-- Running the `n` distinct signal registrations from a fresh graph
succeeds throughout, granting ids `0..n-1` and reaching `sigCtx n`. -/
theorem runRegs_sigOps (n : Nat) :
    runRegs ReactiveContext.new (sigOps n)
      = (sigCtx n, (List.range n).map (fun i => Except.ok i)) := by
  induction n with
  | zero => rfl
  | succ n ih =>
      have hops : sigOps (n + 1)
          = sigOps n ++ [RegOp.sig (aName n) (.integer 0)] := by
        unfold sigOps
        rw [List.range_succ, List.map_append]
        rfl
      rw [hops, runRegs_append, ih]
      have hlook : alookup (sigCtx n).name_to_id (aName n) = none :=
        alookup_sig_index_none n (aName n)
          (fun i hi hcontra => by
            have := aName_inj hcontra
            omega)
      have hnotsome : (alookup (sigCtx n).name_to_id (aName n)).isSome
          = false := by
        rw [hlook]
        rfl
      have hn1 : alookup (sigCtx n).nodes n = none := by
        apply alookup_eq_none_of_keys
        intro p hp
        obtain ⟨i, hi, rfl⟩ := List.mem_map.mp hp
        have := List.mem_range.mp hi
        exact Nat.ne_of_lt this
      have hn2 : alookup (sigCtx n).values n = none := by
        apply alookup_eq_none_of_keys
        intro p hp
        obtain ⟨i, hi, rfl⟩ := List.mem_map.mp hp
        have := List.mem_range.mp hi
        exact Nat.ne_of_lt this
      simp only [runRegs, applyReg, ReactiveContext.register_signal,
        hnotsome, Bool.false_eq_true, if_false]
      rw [show (sigCtx n).next_signal_id = n from rfl]
      rw [upsert_eq_append _ _ _ hn1, upsert_eq_append _ _ _ hlook,
          upsert_eq_append _ _ _ hn2]
      unfold sigCtx
      simp only [List.range_succ, List.map_append, List.map_cons,
        List.map_nil]

/-- Direct evaluation rule for `getValue` on a Computed hit. -/
theorem getValue_eval_computed (nodes : List (NodeId × ReactiveNode))
    (ntid : List (String × NodeId)) (vals : List (NodeId × Value))
    (name : String) (id : NodeId) (c : ComputedNode) (v : Value)
    (h1 : alookup ntid name = some id)
    (h2 : alookup nodes id = some (.computed c))
    (h3 : alookup vals id = some v) :
    getValue nodes ntid vals name = .ok v := by
  simp only [getValue, h1, h2, h3, Option.getD_some]

set_option maxRecDepth 8000 in
/-- **C7 counterexample.**  1001 signal registrations (distinct names
`aName 0 .. aName 1000`) all succeed, granting ids `0..1000`; one further
computed registration also succeeds — and is granted id 1000 again, because
the Computed counter starts at 1000 while the Signal counter has reached it.
Both the signal registered under `aName 1000` and the computed registered
under `"c"` are live (registered, never removed), yet they share id 1000:
the name index maps both names to 1000, the registry now holds the computed
under that id (the signal node was silently replaced), and
`get(aName 1000)` returns the computed's value `7` instead of the signal's
`0`. -/
theorem c7_id_collision_counterexample :
    (runRegs ReactiveContext.new c7ops).2
      = (List.range 1001).map (fun i => Except.ok i)
          ++ [(.ok 1000 : Except ReactiveError NodeId)] ∧
    alookup (runRegs ReactiveContext.new c7ops).1.name_to_id (aName 1000)
      = some 1000 ∧
    alookup (runRegs ReactiveContext.new c7ops).1.name_to_id "c"
      = some 1000 ∧
    alookup (runRegs ReactiveContext.new c7ops).1.nodes 1000
      = some (.computed
          { id := 1000, dependencies := [], subscribers := [],
            compute_fn := .const (.integer 7), name := "c" }) ∧
    (runRegs ReactiveContext.new c7ops).1.get (aName 1000)
      = .ok (.integer 7) := by
  have hrun : runRegs ReactiveContext.new c7ops
      = ((runRegs (sigCtx 1001)
            [RegOp.comp "c" [] (.const (.integer 7))]).1,
         (List.range 1001).map (fun i => Except.ok i)
           ++ (runRegs (sigCtx 1001)
                 [RegOp.comp "c" [] (.const (.integer 7))]).2) := by
    unfold c7ops
    rw [runRegs_append, runRegs_sigOps]
  have hsingle : runRegs (sigCtx 1001)
        [RegOp.comp "c" [] (.const (.integer 7))]
      = (((sigCtx 1001).register_computed "c" [] (.const (.integer 7))).2,
         [((sigCtx 1001).register_computed "c" []
             (.const (.integer 7))).1]) := by
    simp only [runRegs, applyReg]
  have hlookc : alookup (sigCtx 1001).name_to_id "c" = none :=
    alookup_sig_index_none 1001 "c" (fun i _ => aName_ne_c i)
  have hnotsomec : (alookup (sigCtx 1001).name_to_id "c").isSome = false := by
    rw [hlookc]
    rfl
  have hR1 : ((sigCtx 1001).register_computed "c" []
      (.const (.integer 7))).1 = .ok 1000 := by
    simp only [ReactiveContext.register_computed, resolveDeps, hsExtend,
      List.foldl_nil, subscribeAll, evalCompFn, hnotsomec,
      Bool.false_eq_true, if_false]
    rw [show (sigCtx 1001).next_computed_id = 1000 from rfl]
  have hRnodes : ((sigCtx 1001).register_computed "c" []
        (.const (.integer 7))).2.nodes
      = upsert (sigCtx 1001).nodes 1000
          (.computed
            { id := 1000, dependencies := [], subscribers := [],
              compute_fn := .const (.integer 7), name := "c" }) := by
    simp only [ReactiveContext.register_computed, resolveDeps, hsExtend,
      List.foldl_nil, subscribeAll, evalCompFn, hnotsomec,
      Bool.false_eq_true, if_false]
    rw [show (sigCtx 1001).next_computed_id = 1000 from rfl]
  have hRntid : ((sigCtx 1001).register_computed "c" []
        (.const (.integer 7))).2.name_to_id
      = upsert (sigCtx 1001).name_to_id "c" 1000 := by
    simp only [ReactiveContext.register_computed, resolveDeps, hsExtend,
      List.foldl_nil, subscribeAll, evalCompFn, hnotsomec,
      Bool.false_eq_true, if_false]
    rw [show (sigCtx 1001).next_computed_id = 1000 from rfl]
  have hRvalues : ((sigCtx 1001).register_computed "c" []
        (.const (.integer 7))).2.values
      = upsert (upsert (sigCtx 1001).values 1000 Value.nil) 1000
          (.integer 7) := by
    simp only [ReactiveContext.register_computed, resolveDeps, hsExtend,
      List.foldl_nil, subscribeAll, evalCompFn, hnotsomec,
      Bool.false_eq_true, if_false]
    rw [show (sigCtx 1001).next_computed_id = 1000 from rfl]
  have hname1000 : alookup (upsert (sigCtx 1001).name_to_id "c" 1000)
      (aName 1000) = some 1000 := by
    rw [alookup_upsert_ne _ _ _ _ (aName_ne_c 1000)]
    exact alookup_sig_index_some 1001 1000 (by omega)
  refine ⟨?_, ?_, ?_, ?_, ?_⟩
  · rw [hrun, hsingle, hR1]
  · rw [hrun, hsingle]
    show alookup ((sigCtx 1001).register_computed "c" []
      (.const (.integer 7))).2.name_to_id (aName 1000) = some 1000
    rw [hRntid]
    exact hname1000
  · rw [hrun, hsingle]
    show alookup ((sigCtx 1001).register_computed "c" []
      (.const (.integer 7))).2.name_to_id "c" = some 1000
    rw [hRntid]
    exact alookup_upsert_self _ _ _
  · rw [hrun, hsingle]
    show alookup ((sigCtx 1001).register_computed "c" []
      (.const (.integer 7))).2.nodes 1000 = _
    rw [hRnodes]
    exact alookup_upsert_self _ _ _
  · rw [hrun, hsingle]
    show getValue
        ((sigCtx 1001).register_computed "c" [] (.const (.integer 7))).2.nodes
        ((sigCtx 1001).register_computed "c" []
          (.const (.integer 7))).2.name_to_id
        ((sigCtx 1001).register_computed "c" []
          (.const (.integer 7))).2.values
        (aName 1000) = .ok (.integer 7)
    rw [hRnodes, hRntid, hRvalues]
    exact getValue_eval_computed _ _ _ _ 1000
      { id := 1000, dependencies := [], subscribers := [],
        compute_fn := .const (.integer 7), name := "c" }
      (.integer 7) hname1000 (alookup_upsert_self _ _ _)
      (alookup_upsert_self _ _ _)

theorem register_signal_counters (ctx : ReactiveContext) (name : String)
    (v : Value) :
    (ctx.register_signal name v).2.next_signal_id
        = ctx.next_signal_id + 1 ∧
    (ctx.register_signal name v).2.next_computed_id
        = ctx.next_computed_id ∧
    (ctx.register_signal name v).2.next_effect_id = ctx.next_effect_id ∧
    ∀ i, (ctx.register_signal name v).1 = .ok i →
      i = ctx.next_signal_id := by
  unfold ReactiveContext.register_signal
  by_cases h : (alookup ctx.name_to_id name).isSome
  · simp [h]
  · simp [h]

theorem register_computed_counters (ctx : ReactiveContext) (name : String)
    (deps : List String) (f : CompFn) :
    (ctx.register_computed name deps f).2.next_signal_id
        = ctx.next_signal_id ∧
    ((ctx.register_computed name deps f).2.next_computed_id
        = ctx.next_computed_id ∨
     (ctx.register_computed name deps f).2.next_computed_id
        = ctx.next_computed_id + 1) ∧
    (ctx.register_computed name deps f).2.next_effect_id
        = ctx.next_effect_id ∧
    ∀ i, (ctx.register_computed name deps f).1 = .ok i →
      i = ctx.next_computed_id ∧
      (ctx.register_computed name deps f).2.next_computed_id
        = ctx.next_computed_id + 1 := by
  unfold ReactiveContext.register_computed
  cases hres : resolveDeps ctx.name_to_id deps with
  | error e => simp [hres]
  | ok ids =>
      by_cases h : (alookup ctx.name_to_id name).isSome
      · simp [hres, h]
      · simp [hres, h]

theorem register_effect_counters (ctx : ReactiveContext) (name : String)
    (deps : List String) :
    (ctx.register_effect name deps).2.next_signal_id
        = ctx.next_signal_id ∧
    (ctx.register_effect name deps).2.next_computed_id
        = ctx.next_computed_id ∧
    ((ctx.register_effect name deps).2.next_effect_id
        = ctx.next_effect_id ∨
     (ctx.register_effect name deps).2.next_effect_id
        = ctx.next_effect_id + 1) ∧
    ∀ i, (ctx.register_effect name deps).1 = .ok i →
      i = ctx.next_effect_id ∧
      (ctx.register_effect name deps).2.next_effect_id
        = ctx.next_effect_id + 1 := by
  unfold ReactiveContext.register_effect
  cases hres : resolveDeps ctx.name_to_id deps with
  | error e => simp [hres]
  | ok ids =>
      simp [hres]

/-- Invariant run: as long as the Signal counter stays at most 1000 and the
Computed counter at most 2000, every granted id is fresh, so the granted
ids stay duplicate-free. -/
theorem runRegs_okIds_nodup : ∀ (ops : List RegOp) (ctx : ReactiveContext)
    (acc : List Nat),
    (∀ a ∈ acc, a < ctx.next_signal_id
      ∨ (1000 ≤ a ∧ a < ctx.next_computed_id)
      ∨ (2000 ≤ a ∧ a < ctx.next_effect_id)) →
    acc.Nodup →
    ctx.next_signal_id + countSigOps ops ≤ 1000 →
    1000 ≤ ctx.next_computed_id →
    ctx.next_computed_id + countCompOps ops ≤ 2000 →
    2000 ≤ ctx.next_effect_id →
    (acc ++ okIds (runRegs ctx ops).2).Nodup := by
  intro ops
  induction ops with
  | nil =>
      intro ctx acc hr hnd _ _ _ _
      simpa [runRegs, okIds] using hnd
  | cons op rest ih =>
      intro ctx acc hr hnd hsig hc1 hcomp he1
      have hrr : (runRegs ctx (op :: rest)).2
          = (applyReg ctx op).1 :: (runRegs (applyReg ctx op).2 rest).2 := by
        simp [runRegs]
      rw [hrr]
      cases op with
      | sig name v =>
          obtain ⟨hn1, hn2, hn3, hok⟩ := register_signal_counters ctx name v
          have hcnt : countSigOps (RegOp.sig name v :: rest)
              = countSigOps rest + 1 := rfl
          rw [hcnt] at hsig
          have hcntc : countCompOps (RegOp.sig name v :: rest)
              = countCompOps rest := rfl
          rw [hcntc] at hcomp
          have hsig' : (ctx.register_signal name v).2.next_signal_id
              + countSigOps rest ≤ 1000 := by
            rw [hn1]
            omega
          have hcomp' : (ctx.register_signal name v).2.next_computed_id
              + countCompOps rest ≤ 2000 := by
            rw [hn2]
            omega
          have hc1' : 1000
              ≤ (ctx.register_signal name v).2.next_computed_id := by
            rw [hn2]
            exact hc1
          have he1' : 2000
              ≤ (ctx.register_signal name v).2.next_effect_id := by
            rw [hn3]
            exact he1
          have hranges0 : ∀ a ∈ acc,
              a < (ctx.register_signal name v).2.next_signal_id
              ∨ (1000 ≤ a
                  ∧ a < (ctx.register_signal name v).2.next_computed_id)
              ∨ (2000 ≤ a
                  ∧ a < (ctx.register_signal name v).2.next_effect_id) := by
            intro a ha
            rw [hn1, hn2, hn3]
            rcases hr a ha with h' | h' | h'
            · exact Or.inl (by omega)
            · exact Or.inr (Or.inl h')
            · exact Or.inr (Or.inr h')
          rcases hres : (ctx.register_signal name v).1 with e | i
          · have := ih (ctx.register_signal name v).2 acc hranges0 hnd hsig'
              hc1' hcomp' he1'
            simpa [applyReg, okIds, hres] using this
          · have hieq : i = ctx.next_signal_id := hok i hres
            subst hieq
            have hnotin : ctx.next_signal_id ∉ acc := by
              intro hin
              rcases hr _ hin with h' | h' | h' <;> omega
            have hranges : ∀ a ∈ acc ++ [ctx.next_signal_id],
                a < (ctx.register_signal name v).2.next_signal_id
                ∨ (1000 ≤ a
                    ∧ a < (ctx.register_signal name v).2.next_computed_id)
                ∨ (2000 ≤ a
                    ∧ a < (ctx.register_signal name v).2.next_effect_id) := by
              intro a ha
              rcases List.mem_append.mp ha with ha' | ha'
              · exact hranges0 a ha'
              · have haeq : a = ctx.next_signal_id := by simpa using ha'
                subst haeq
                rw [hn1]
                exact Or.inl (by omega)
            have hnd' : (acc ++ [ctx.next_signal_id]).Nodup := by
              rw [List.nodup_append]
              exact ⟨hnd, List.nodup_singleton _,
                fun a ha hb =>
                  hnotin (by simpa [List.mem_singleton.mp hb] using ha)⟩
            have := ih (ctx.register_signal name v).2
              (acc ++ [ctx.next_signal_id]) hranges hnd' hsig' hc1' hcomp'
              he1'
            rw [List.append_assoc] at this
            simpa [applyReg, okIds, hres] using this
      | comp name deps f =>
          obtain ⟨hn1, hn2, hn3, hok⟩ := register_computed_counters ctx name
            deps f
          have hcnt : countCompOps (RegOp.comp name deps f :: rest)
              = countCompOps rest + 1 := rfl
          rw [hcnt] at hcomp
          have hcnts : countSigOps (RegOp.comp name deps f :: rest)
              = countSigOps rest := rfl
          rw [hcnts] at hsig
          have hn2le : ctx.next_computed_id
              ≤ (ctx.register_computed name deps f).2.next_computed_id := by
            rcases hn2 with h' | h' <;> omega
          have hn2le' : (ctx.register_computed name deps f).2.next_computed_id
              ≤ ctx.next_computed_id + 1 := by
            rcases hn2 with h' | h' <;> omega
          have hsig' : (ctx.register_computed name deps f).2.next_signal_id
              + countSigOps rest ≤ 1000 := by
            rw [hn1]
            omega
          have hcomp' : (ctx.register_computed name deps f).2.next_computed_id
              + countCompOps rest ≤ 2000 := by
            omega
          have hc1' : 1000
              ≤ (ctx.register_computed name deps f).2.next_computed_id := by
            omega
          have he1' : 2000
              ≤ (ctx.register_computed name deps f).2.next_effect_id := by
            rw [hn3]
            exact he1
          have hranges0 : ∀ a ∈ acc,
              a < (ctx.register_computed name deps f).2.next_signal_id
              ∨ (1000 ≤ a
                  ∧ a < (ctx.register_computed name deps f).2.next_computed_id)
              ∨ (2000 ≤ a
                  ∧ a < (ctx.register_computed name deps f).2.next_effect_id) := by
            intro a ha
            rw [hn1, hn3]
            rcases hr a ha with h' | h' | h'
            · exact Or.inl h'
            · exact Or.inr (Or.inl ⟨h'.1, by omega⟩)
            · exact Or.inr (Or.inr h')
          rcases hres : (ctx.register_computed name deps f).1 with e | i
          · have := ih (ctx.register_computed name deps f).2 acc hranges0 hnd
              hsig' hc1' hcomp' he1'
            simpa [applyReg, okIds, hres] using this
          · obtain ⟨hieq, hbump⟩ := hok i hres
            subst hieq
            have hlt : ctx.next_computed_id < 2000 := by omega
            have hnotin : ctx.next_computed_id ∉ acc := by
              intro hin
              rcases hr _ hin with h' | h' | h' <;> omega
            have hranges : ∀ a ∈ acc ++ [ctx.next_computed_id],
                a < (ctx.register_computed name deps f).2.next_signal_id
                ∨ (1000 ≤ a
                    ∧ a < (ctx.register_computed name deps f).2.next_computed_id)
                ∨ (2000 ≤ a
                    ∧ a < (ctx.register_computed name deps f).2.next_effect_id) := by
              intro a ha
              rcases List.mem_append.mp ha with ha' | ha'
              · exact hranges0 a ha'
              · have haeq : a = ctx.next_computed_id := by simpa using ha'
                subst haeq
                exact Or.inr (Or.inl ⟨hc1, by omega⟩)
            have hnd' : (acc ++ [ctx.next_computed_id]).Nodup := by
              rw [List.nodup_append]
              exact ⟨hnd, List.nodup_singleton _,
                fun a ha hb =>
                  hnotin (by simpa [List.mem_singleton.mp hb] using ha)⟩
            have := ih (ctx.register_computed name deps f).2
              (acc ++ [ctx.next_computed_id]) hranges hnd' hsig' hc1' hcomp'
              he1'
            rw [List.append_assoc] at this
            simpa [applyReg, okIds, hres] using this
      | eff name deps =>
          obtain ⟨hn1, hn2, hn3, hok⟩ := register_effect_counters ctx name
            deps
          have hcnt : countCompOps (RegOp.eff name deps :: rest)
              = countCompOps rest := rfl
          rw [hcnt] at hcomp
          have hcnts : countSigOps (RegOp.eff name deps :: rest)
              = countSigOps rest := rfl
          rw [hcnts] at hsig
          have hn3le : ctx.next_effect_id
              ≤ (ctx.register_effect name deps).2.next_effect_id := by
            rcases hn3 with h' | h' <;> omega
          have hsig' : (ctx.register_effect name deps).2.next_signal_id
              + countSigOps rest ≤ 1000 := by
            rw [hn1]
            omega
          have hcomp' : (ctx.register_effect name deps).2.next_computed_id
              + countCompOps rest ≤ 2000 := by
            rw [hn2]
            omega
          have hc1' : 1000
              ≤ (ctx.register_effect name deps).2.next_computed_id := by
            rw [hn2]
            exact hc1
          have he1' : 2000
              ≤ (ctx.register_effect name deps).2.next_effect_id := by
            omega
          have hranges0 : ∀ a ∈ acc,
              a < (ctx.register_effect name deps).2.next_signal_id
              ∨ (1000 ≤ a
                  ∧ a < (ctx.register_effect name deps).2.next_computed_id)
              ∨ (2000 ≤ a
                  ∧ a < (ctx.register_effect name deps).2.next_effect_id) := by
            intro a ha
            rw [hn1, hn2]
            rcases hr a ha with h' | h' | h'
            · exact Or.inl h'
            · exact Or.inr (Or.inl h')
            · exact Or.inr (Or.inr ⟨h'.1, by omega⟩)
          rcases hres : (ctx.register_effect name deps).1 with e | i
          · have := ih (ctx.register_effect name deps).2 acc hranges0 hnd
              hsig' hc1' hcomp' he1'
            simpa [applyReg, okIds, hres] using this
          · obtain ⟨hieq, hbump⟩ := hok i hres
            subst hieq
            have hnotin : ctx.next_effect_id ∉ acc := by
              intro hin
              rcases hr _ hin with h' | h' | h' <;> omega
            have hranges : ∀ a ∈ acc ++ [ctx.next_effect_id],
                a < (ctx.register_effect name deps).2.next_signal_id
                ∨ (1000 ≤ a
                    ∧ a < (ctx.register_effect name deps).2.next_computed_id)
                ∨ (2000 ≤ a
                    ∧ a < (ctx.register_effect name deps).2.next_effect_id) := by
              intro a ha
              rcases List.mem_append.mp ha with ha' | ha'
              · exact hranges0 a ha'
              · have haeq : a = ctx.next_effect_id := by simpa using ha'
                subst haeq
                exact Or.inr (Or.inr ⟨he1, by omega⟩)
            have hnd' : (acc ++ [ctx.next_effect_id]).Nodup := by
              rw [List.nodup_append]
              exact ⟨hnd, List.nodup_singleton _,
                fun a ha hb =>
                  hnotin (by simpa [List.mem_singleton.mp hb] using ha)⟩
            have := ih (ctx.register_effect name deps).2
              (acc ++ [ctx.next_effect_id]) hranges hnd' hsig' hc1' hcomp'
              he1'
            rw [List.append_assoc] at this
            simpa [applyReg, okIds, hres] using this

/-- **C7 amended.**  All NodeIds granted by a sequence of registrations
from a fresh graph are pairwise distinct provided the sequence contains at
most 1000 signal registrations and at most 1000 computed registrations (so
each per-kind counter, starting at 0 / 1000 / 2000, stays inside its own
range).  Beyond that bound the counters collide, as the counterexample
shows: the 1001st signal takes id 1000, the first computed id. -/
theorem c7_amended_ids_distinct_when_bounded (ops : List RegOp)
    (hsig : countSigOps ops ≤ 1000) (hcomp : countCompOps ops ≤ 1000) :
    (okIds (runRegs ReactiveContext.new ops).2).Nodup := by
  have h := runRegs_okIds_nodup ops ReactiveContext.new []
    (by intro a ha; cases ha) List.nodup_nil
    (show 0 + countSigOps ops ≤ 1000 by omega)
    (show (1000 : Nat) ≤ 1000 from le_refl 1000)
    (show 1000 + countCompOps ops ≤ 2000 by omega)
    (show (2000 : Nat) ≤ 2000 from le_refl 2000)
  simpa using h

/-- **C7 amended, witness**: a short mixed sequence (one signal, one
computed, one effect) is within the bound and its granted ids
`[0, 1000, 2000]` are pairwise distinct. -/
theorem c7_amended_witness :
    (okIds (runRegs ReactiveContext.new
      [RegOp.sig "a" (.integer 0), RegOp.comp "c" [] (.const (.integer 7)),
       RegOp.eff "e" []]).2).Nodup :=
  c7_amended_ids_distinct_when_bounded _ (by decide) (by decide)

end ALang
